import Mathlib

/-! A shallow embedding of tiny-sdf (src/index.js): the Felzenszwalb–Huttenlocher
1D/2D squared Euclidean distance transforms and the SDF `draw` pipeline.
JavaScript double-precision numbers are idealised as rationals, and the
fixed-size `Float64Array`/`Uint16Array` buffers as total functions on ℕ.
-/

namespace TinySDF

/-- The finite "infinity" sentinel `INF = 1e20` of src/index.js line 1. -/
def INF : ℚ := 10 ^ 20

/-- Pointwise buffer update, modelling `a[i] = x` on a numeric array. -/
def upd (g : ℕ → ℚ) (i : ℕ) (x : ℚ) : ℕ → ℚ := fun j => if j = i then x else g j

/-- Pointwise update for the integer-valued buffer `v`. -/
def updN (g : ℕ → ℕ) (i : ℕ) (x : ℕ) : ℕ → ℕ := fun j => if j = i then x else g j

/-- Value at `x` of the parabola rooted at sample `r`: `f[r] + (x - r)^2`. -/
def pval (fb : ℕ → ℚ) (r : ℕ) (x : ℚ) : ℚ := fb r + (x - r) * (x - r)

/-- The intersection abscissa `s = (f[q] - f[r] + q * q - r * r) / (q - r) / 2`
computed at src/index.js line 124. -/
def cross (fb : ℕ → ℚ) (r q : ℕ) : ℚ :=
  (fb q - fb r + (q : ℚ) * q - (r : ℚ) * r) / ((q : ℚ) - r) / 2

/-- Scan-phase state of `edt1d`: the top-of-stack index `k`, the parabola
index buffer `v` and the envelope boundary buffer `z`. -/
structure ScanState where
  k : ℕ
  v : ℕ → ℕ
  z : ℕ → ℚ

/-- The `do { r = v[k]; s = ...; } while (s <= z[k] && --k > -1)` loop of
`edt1d` (src/index.js lines 122-125).  Returns the final value of `k`
(`-1` exactly when the loop exits by exhausting the stack) together with the
last computed intersection `s`. -/
def popLoop (fb : ℕ → ℚ) (v : ℕ → ℕ) (z : ℕ → ℚ) (q : ℕ) : ℕ → ℤ × ℚ
  | 0 => if cross fb (v 0) q ≤ z 0 then (-1, cross fb (v 0) q) else (0, cross fb (v 0) q)
  | k + 1 =>
    if cross fb (v (k + 1)) q ≤ z (k + 1) then popLoop fb v z q k
    else ((k : ℤ) + 1, cross fb (v (k + 1)) q)

/-- One iteration of the scan loop of `edt1d` for sample `q`
(src/index.js lines 121-131): pop dominated parabolas, then push `q` with
`v[k] = q; z[k] = s; z[k + 1] = INF`. -/
def scanStep (fb : ℕ → ℚ) (σ : ScanState) (q : ℕ) : ScanState :=
  let p := popLoop fb σ.v σ.z q σ.k
  let kn := (p.1 + 1).toNat
  { k := kn, v := updN σ.v kn q, z := upd (upd σ.z kn p.2) (kn + 1) INF }

/-- State after `v[0] = 0; z[0] = -INF; z[1] = INF` (src/index.js lines 115-117),
on top of the incoming scratch buffers `v0`, `z0`. -/
def initState (v0 : ℕ → ℕ) (z0 : ℕ → ℚ) : ScanState :=
  { k := 0, v := updN v0 0 0, z := upd (upd z0 0 (-INF)) 1 INF }

/-- Scan state after processing samples `q = 1..n`. -/
def scanTo (fb : ℕ → ℚ) (v0 : ℕ → ℕ) (z0 : ℕ → ℚ) : ℕ → ScanState
  | 0 => initState v0 z0
  | n + 1 => scanStep fb (scanTo fb v0 z0 n) (n + 1)

/-- The `while (z[k + 1] < q) k++` cursor advance of the output pass
(src/index.js line 134).  `fuel` bounds the number of advances; the actual run
always stops at the top of the stack, where `z[k + 1] = INF`. -/
def cursor (z : ℕ → ℚ) (q : ℚ) : ℕ → ℕ → ℕ
  | 0, k => k
  | fuel + 1, k => if z (k + 1) < q then cursor z q fuel (k + 1) else k

/-- Output-pass state after writing cells `q = 0..n-1`
(src/index.js lines 133-137): the cursor position and the partially
overwritten grid.  Each step writes
`grid[offset + q * stride] = f[r] + (q - r) * (q - r)` with `r = v[k]`. -/
def outTo (fb : ℕ → ℚ) (v : ℕ → ℕ) (z : ℕ → ℚ) (off st L : ℕ) (g : ℕ → ℚ) :
    ℕ → ℕ × (ℕ → ℚ)
  | 0 => (0, g)
  | n + 1 =>
    let p := outTo fb v z off st L g n
    let kq := cursor z (n : ℚ) L p.1
    (kq, upd p.2 (off + n * st) (fb (v kq) + ((n : ℚ) - v kq) * ((n : ℚ) - v kq)))

/-- Contents of the scratch buffer `f` after the copy loop
`for (q = 0; q < length; q++) f[q] = grid[offset + q * stride]`
(src/index.js line 119). -/
def lineF (g : ℕ → ℚ) (off st L : ℕ) (f0 : ℕ → ℚ) : ℕ → ℚ :=
  fun q => if q < L then g (off + q * st) else f0 q

/-- Result of `edt1d`: the transformed grid together with the final contents
of the three scratch buffers. -/
structure Edt1dResult where
  grid : ℕ → ℚ
  f : ℕ → ℚ
  v : ℕ → ℕ
  z : ℕ → ℚ

/-- The function `edt1d(grid, offset, stride, length, f, v, z)` (src/index.js lines 113-137),
with the incoming contents of the scratch buffers passed explicitly. -/
def edt1d (g : ℕ → ℚ) (off st L : ℕ) (f0 : ℕ → ℚ) (v0 : ℕ → ℕ) (z0 : ℕ → ℚ) :
    Edt1dResult :=
  let fb := lineF g off st L f0
  let σ := scanTo fb v0 z0 (L - 1)
  { grid := (outTo fb σ.v σ.z off st L g L).2, f := fb, v := σ.v, z := σ.z }

/-- Mutable state carried through the passes of `edt`: the grid plus the three
shared scratch buffers. -/
structure EdtState where
  grid : ℕ → ℚ
  f : ℕ → ℚ
  v : ℕ → ℕ
  z : ℕ → ℚ

/-- Apply `edt1d` to one line of the state's grid, reusing its scratch buffers. -/
def edt1dOn (s : EdtState) (off st L : ℕ) : EdtState :=
  let r := edt1d s.grid off st L s.f s.v s.z
  ⟨r.grid, r.f, r.v, r.z⟩

/-- The column passes `for (x = 0; x < width; x++) edt1d(data, x, width, height, ...)`
(src/index.js line 108), for the columns `x = 0..n-1`. -/
def edtColsTo (w h : ℕ) (s : EdtState) : ℕ → EdtState
  | 0 => s
  | x + 1 => edt1dOn (edtColsTo w h s x) x w h

/-- The row passes `for (y = 0; y < height; y++) edt1d(data, y * width, 1, width, ...)`
(src/index.js line 109), for the rows `y = 0..n-1`. -/
def edtRowsTo (w : ℕ) (s : EdtState) : ℕ → EdtState
  | 0 => s
  | y + 1 => edt1dOn (edtRowsTo w s y) (y * w) 1 w

/-- The 2D squared distance transform `edt(data, width, height, f, v, z)`
(src/index.js lines 107-110): all the column passes, then all the row passes. -/
def edt (g : ℕ → ℚ) (w h : ℕ) (f0 : ℕ → ℚ) (v0 : ℕ → ℕ) (z0 : ℕ → ℚ) : EdtState :=
  edtRowsTo w (edtColsTo w h ⟨g, f0, v0, z0⟩ w) h

/-- Modelled from the spec (§4.2): `edt` as the spec describes it, applying
`edt1d` once per row (stride 1, length `width`) first and once per column
(stride `width`, length `height`) second. -/
def edtRowsFirst (g : ℕ → ℚ) (w h : ℕ) (f0 : ℕ → ℚ) (v0 : ℕ → ℕ) (z0 : ℕ → ℚ) :
    EdtState :=
  edtColsTo w h (edtRowsTo w ⟨g, f0, v0, z0⟩ h) w

/-- Minimum of `fb r + (x - r)^2` over the samples `r = 0..L-1` of a line:
the mathematical value the 1D distance transform is meant to compute. -/
def lineMin (fb : ℕ → ℚ) (x : ℚ) : ℕ → ℚ
  | 0 => 0
  | 1 => pval fb 0 x
  | L + 2 => min (lineMin fb x (L + 1)) (pval fb (L + 1) x)

/-- Glyph metrics record (spec §3; the shape returned by `getMetrics`). -/
structure Metrics where
  width : ℕ
  height : ℕ
  glyphWidth : ℕ
  glyphHeight : ℕ
  glyphTop : ℤ
  glyphLeft : ℤ
  glyphAdvance : ℚ

/-- Output glyph of `draw`: the byte buffer as a function together with its
length `width * height` (the length of the `Uint8ClampedArray` allocated at
src/index.js line 70), plus the metrics passed through. -/
structure Glyph where
  data : ℕ → ℤ
  dataLen : ℕ
  width : ℕ
  height : ℕ
  glyphWidth : ℕ
  glyphHeight : ℕ
  glyphTop : ℤ
  glyphLeft : ℤ
  glyphAdvance : ℚ

/-- A `Uint8ClampedArray` store of an integral value: clamp into `[0, 255]`. -/
def clampByte (n : ℤ) : ℤ := max 0 (min 255 n)

/-- Alpha value of glyph pixel `(x, y)`: the byte
`imgData.data[4 * (y * glyphWidth + x) + 3]` divided by 255
(src/index.js line 88). -/
def alphaAt (img : ℕ → ℕ) (gw x y : ℕ) : ℚ := (img (4 * (y * gw + x) + 3) : ℚ) / 255

/-- The centering offset `(width - glyphWidth) >> 1` (src/index.js line 83). -/
def drawOffset (m : Metrics) : ℕ := (m.width - m.glyphWidth) / 2

/-- Outer-grid seed for alpha `a` (src/index.js line 89):
`a === 1 ? 0 : a === 0 ? INF : Math.pow(Math.max(0, 0.5 - a), 2)`. -/
def outerSeed (a : ℚ) : ℚ :=
  if a = 1 then 0 else if a = 0 then INF else max 0 (1 / 2 - a) * max 0 (1 / 2 - a)

/-- Inner-grid seed for alpha `a` (src/index.js line 90):
`a === 1 ? INF : a === 0 ? 0 : Math.pow(Math.max(0, a - 0.5), 2)`. -/
def innerSeed (a : ℚ) : ℚ :=
  if a = 1 then INF else if a = 0 then 0 else max 0 (a - 1 / 2) * max 0 (a - 1 / 2)

/-- Flat index `j = (y + offset) * width + x + offset` of glyph pixel `(x, y)`
on the canvas (src/index.js line 87). -/
def seedIdx (m : Metrics) (x y : ℕ) : ℕ :=
  (y + drawOffset m) * m.width + x + drawOffset m

/-- One iteration of the seeding loop body (src/index.js lines 87-91). -/
def seedStep (m : Metrics) (img : ℕ → ℕ) (p : (ℕ → ℚ) × (ℕ → ℚ)) (x y : ℕ) :
    (ℕ → ℚ) × (ℕ → ℚ) :=
  let a := alphaAt img m.glyphWidth x y
  (upd p.1 (seedIdx m x y) (outerSeed a), upd p.2 (seedIdx m x y) (innerSeed a))

/-- The inner seeding loop, over pixels `x = 0..n-1` of row `y`. -/
def seedRow (m : Metrics) (img : ℕ → ℕ) (y : ℕ) (p : (ℕ → ℚ) × (ℕ → ℚ)) :
    ℕ → (ℕ → ℚ) × (ℕ → ℚ)
  | 0 => p
  | x + 1 => seedStep m img (seedRow m img y p x) x y

/-- The outer seeding loop, over rows `y = 0..n-1` (each processing a full row
of `glyphWidth` pixels). -/
def seedAll (m : Metrics) (img : ℕ → ℕ) (p : (ℕ → ℚ) × (ℕ → ℚ)) :
    ℕ → (ℕ → ℚ) × (ℕ → ℚ)
  | 0 => p
  | y + 1 => seedRow m img y (seedAll m img p y) m.glyphWidth

/-- The fills `gridOuter.fill(INF, 0, width * height); gridInner.fill(0, 0, width * height)`
(src/index.js lines 80-81), on top of the stale per-instance grids. -/
def fillGrids (m : Metrics) (gO0 gI0 : ℕ → ℚ) : (ℕ → ℚ) × (ℕ → ℚ) :=
  (fun j => if j < m.width * m.height then INF else gO0 j,
   fun j => if j < m.width * m.height then 0 else gI0 j)

/-- The two cost grids right before the distance transforms
(src/index.js lines 79-92). -/
def seededGrids (m : Metrics) (img : ℕ → ℕ) (gO0 gI0 : ℕ → ℚ) :
    (ℕ → ℚ) × (ℕ → ℚ) :=
  seedAll m img (fillGrids m gO0 gI0) m.glyphHeight

/-- State of `gridOuter` and of the scratch buffers after
`edt(gridOuter, width, height, this.f, this.v, this.z)` (src/index.js line 94). -/
def drawOuterEdt (m : Metrics) (img : ℕ → ℕ) (gO0 gI0 f0 : ℕ → ℚ) (v0 : ℕ → ℕ)
    (z0 : ℕ → ℚ) : EdtState :=
  edt (seededGrids m img gO0 gI0).1 m.width m.height f0 v0 z0

/-- State of `gridInner` after `edt(gridInner, ...)` (src/index.js line 95);
the scratch buffers are reused exactly as the first transform left them. -/
def drawInnerEdt (m : Metrics) (img : ℕ → ℕ) (gO0 gI0 f0 : ℕ → ℚ) (v0 : ℕ → ℕ)
    (z0 : ℕ → ℚ) : EdtState :=
  let so := drawOuterEdt m img gO0 gI0 f0 v0 z0
  edt (seededGrids m img gO0 gI0).2 m.width m.height so.f so.v so.z

/-- The method `draw(char, metrics)` (src/index.js lines 67-103).  The external rasterizer
is abstracted by the alpha byte buffer `img`; `radius` and `cutoff` are the
construction-time options; `gO0`, `gI0`, `f0`, `v0`, `z0` are the incoming
contents of the per-instance reusable buffers.  The final loop computes
`d = Math.sqrt(gridOuter[i]) - Math.sqrt(gridInner[i])` and stores
`Math.round(255 - 255 * (d / radius + cutoff))` through the clamping array
(src/index.js lines 97-100). -/
noncomputable def draw (m : Metrics) (img : ℕ → ℕ) (radius cutoff : ℚ)
    (gO0 gI0 f0 : ℕ → ℚ) (v0 : ℕ → ℕ) (z0 : ℕ → ℚ) : Glyph :=
  if m.glyphWidth = 0 ∨ m.glyphHeight = 0 then
    { data := fun _ => 0, dataLen := m.width * m.height, width := m.width,
      height := m.height, glyphWidth := m.glyphWidth, glyphHeight := m.glyphHeight,
      glyphTop := m.glyphTop, glyphLeft := m.glyphLeft, glyphAdvance := m.glyphAdvance }
  else
    let so := drawOuterEdt m img gO0 gI0 f0 v0 z0
    let si := drawInnerEdt m img gO0 gI0 f0 v0 z0
    { data := fun i =>
        if i < m.width * m.height then
          clampByte (round ((255 : ℝ) -
            255 * ((Real.sqrt ((so.grid i : ℚ) : ℝ) - Real.sqrt ((si.grid i : ℚ) : ℝ)) /
              ((radius : ℚ) : ℝ) + ((cutoff : ℚ) : ℝ))))
        else 0,
      dataLen := m.width * m.height, width := m.width, height := m.height,
      glyphWidth := m.glyphWidth, glyphHeight := m.glyphHeight,
      glyphTop := m.glyphTop, glyphLeft := m.glyphLeft, glyphAdvance := m.glyphAdvance }

/-- Horizontal mirror of a `width`-column row-major grid: cell `(x, y)` is
exchanged with cell `(width - 1 - x, y)`. -/
def mirrorH (g : ℕ → ℚ) (w : ℕ) : ℕ → ℚ :=
  fun j => g ((j / w) * w + (w - 1 - j % w))

/-- Vertical mirror of a `width × height` row-major grid: cell `(x, y)` is
exchanged with cell `(x, height - 1 - y)`. -/
def mirrorV (g : ℕ → ℚ) (w h : ℕ) : ℕ → ℚ :=
  fun j => g ((h - 1 - j / w) * w + j % w)

/-- Invariant of the scan loop of `edt1d` after the samples `1..Q-1` have been
processed: the stack indices are earlier samples, the boundaries increase, the
provisional top boundary is `INF`, and on each envelope slab the recorded
parabola is minimal among all processed parabolas (for abscissae `x ≥ 0`). -/
structure ScanInv (fb : ℕ → ℚ) (Q : ℕ) (σ : ScanState) : Prop where
  vlt : ∀ j ≤ σ.k, σ.v j < Q
  z0neg : σ.z 0 < 0
  zmono : ∀ j < σ.k, σ.z j < σ.z (j + 1)
  ztop : σ.z (σ.k + 1) = INF
  kbound : σ.k < Q
  slab : ∀ j ≤ σ.k, ∀ x : ℚ, 0 ≤ x → σ.z j < x → (j < σ.k → x ≤ σ.z (j + 1)) →
    ∀ r < Q, pval fb (σ.v j) x ≤ pval fb r x

theorem upd_self (g : ℕ → ℚ) (i : ℕ) (x : ℚ) : upd g i x i = x := if_pos rfl

theorem upd_ne (g : ℕ → ℚ) (i : ℕ) (x : ℚ) {j : ℕ} (h : j ≠ i) : upd g i x j = g j :=
  if_neg h

theorem updN_self (g : ℕ → ℕ) (i x : ℕ) : updN g i x i = x := if_pos rfl

theorem updN_ne (g : ℕ → ℕ) (i x : ℕ) {j : ℕ} (h : j ≠ i) : updN g i x j = g j :=
  if_neg h

theorem pval_congr {fb fb' : ℕ → ℚ} {r : ℕ} (h : fb r = fb' r) (x : ℚ) :
    pval fb r x = pval fb' r x := by
  unfold pval; rw [h]

/-- For `r < q`, the parabola at `r` is below the one at `q` exactly left of
their intersection `cross fb r q`. -/
theorem pval_le_pval_iff (fb : ℕ → ℚ) {r q : ℕ} (h : r < q) (x : ℚ) :
    pval fb r x ≤ pval fb q x ↔ x ≤ cross fb r q := by
  have hd : (0 : ℚ) < (q : ℚ) - r := by
    have : (r : ℚ) < q := by exact_mod_cast h
    linarith
  unfold pval cross
  rw [div_div, le_div_iff₀ (by positivity)]
  constructor <;> intro h' <;> nlinarith [h']

/-- For `r < q`, the parabola at `q` is below the one at `r` exactly right of
their intersection. -/
theorem pval_ge_pval_iff (fb : ℕ → ℚ) {r q : ℕ} (h : r < q) (x : ℚ) :
    pval fb q x ≤ pval fb r x ↔ cross fb r q ≤ x := by
  have hd : (0 : ℚ) < (q : ℚ) - r := by
    have : (r : ℚ) < q := by exact_mod_cast h
    linarith
  unfold pval cross
  rw [div_div, div_le_iff₀ (by positivity)]
  constructor <;> intro h' <;> nlinarith [h']

theorem lineMin_le (fb : ℕ → ℚ) (x : ℚ) : ∀ {L r : ℕ}, r < L → lineMin fb x L ≤ pval fb r x := by
  intro L
  induction L with
  | zero => intro r hr; exact absurd hr (Nat.not_lt_zero r)
  | succ n ih =>
    intro r hr
    match n, hr with
    | 0, hr =>
      have : r = 0 := Nat.lt_one_iff.mp hr
      subst this; exact le_refl _
    | m + 1, hr =>
      rcases Nat.lt_succ_iff_lt_or_eq.mp hr with h | h
      · exact le_trans (min_le_left _ _) (ih h)
      · subst h; exact min_le_right _ _

theorem lineMin_exists (fb : ℕ → ℚ) (x : ℚ) :
    ∀ {L : ℕ}, 0 < L → ∃ r, r < L ∧ lineMin fb x L = pval fb r x := by
  intro L
  induction L with
  | zero => intro h; exact absurd h (by omega)
  | succ n ih =>
    intro _
    match n with
    | 0 => exact ⟨0, Nat.one_pos, rfl⟩
    | m + 1 =>
      rcases ih (Nat.succ_pos m) with ⟨r, hr, hval⟩
      rcases le_or_lt (lineMin fb x (m + 1)) (pval fb (m + 1) x) with h | h
      · exact ⟨r, Nat.lt_succ_of_lt hr, by
          show min (lineMin fb x (m + 1)) (pval fb (m + 1) x) = pval fb r x
          rw [min_eq_left h, hval]⟩
      · exact ⟨m + 1, Nat.lt_succ_self _, by
          show min (lineMin fb x (m + 1)) (pval fb (m + 1) x) = pval fb (m + 1) x
          rw [min_eq_right (le_of_lt h)]⟩

theorem le_lineMin (fb : ℕ → ℚ) (x : ℚ) {L : ℕ} {c : ℚ} (hL : 0 < L)
    (h : ∀ r, r < L → c ≤ pval fb r x) : c ≤ lineMin fb x L := by
  rcases lineMin_exists fb x hL with ⟨r, hr, hval⟩
  rw [hval]; exact h r hr

theorem lineMin_congr {fb fb' : ℕ → ℚ} (x : ℚ) :
    ∀ {L : ℕ}, (∀ r, r < L → fb r = fb' r) → lineMin fb x L = lineMin fb' x L := by
  intro L
  induction L with
  | zero => intro _; rfl
  | succ n ih =>
    intro h
    match n with
    | 0 => exact pval_congr (h 0 (Nat.one_pos)) x
    | m + 1 =>
      show min (lineMin fb x (m + 1 + 1 - 1)) _ = min (lineMin fb' x (m + 1 + 1 - 1)) _
      have h1 : lineMin fb x (m + 1) = lineMin fb' x (m + 1) :=
        ih fun r hr => h r (Nat.lt_succ_of_lt hr)
      have h2 : pval fb (m + 1) x = pval fb' (m + 1) x :=
        pval_congr (h (m + 1) (Nat.lt_succ_self _)) x
      simp only [Nat.add_sub_cancel]
      rw [h1, h2]

/-- Locate, among the boundaries `z 0 < x`, the last slab `(z j, z (j+1)]`
(or the top slab) containing `x`. -/
theorem slab_find (z : ℕ → ℚ) (K : ℕ) (x : ℚ) (h0 : z 0 < x) :
    ∃ j, j ≤ K ∧ z j < x ∧ (j < K → x ≤ z (j + 1)) := by
  induction K with
  | zero => exact ⟨0, le_refl _, h0, fun h => absurd h (by omega)⟩
  | succ n ih =>
    rcases lt_or_le (z (n + 1)) x with h | h
    · exact ⟨n + 1, le_refl _, h, fun hcon => absurd hcon (by omega)⟩
    · rcases ih with ⟨j, hj, hzj, hup⟩
      refine ⟨j, Nat.le_succ_of_le hj, hzj, fun _ => ?_⟩
      rcases Nat.lt_or_ge j n with hlt | hge
      · exact hup hlt
      · have : j = n := le_antisymm hj hge
        subst this; exact h

/-- Strict monotonicity of adjacent boundaries gives weak monotonicity at a
distance. -/
theorem zchain {z : ℕ → ℚ} {K : ℕ} (hz : ∀ j, j < K → z j < z (j + 1)) :
    ∀ {a b : ℕ}, a ≤ b → b ≤ K → z a ≤ z b := by
  intro a b hab hbK
  induction b with
  | zero => have : a = 0 := Nat.le_zero.mp hab; rw [this]
  | succ n ih =>
    rcases Nat.lt_succ_iff_lt_or_eq.mp (Nat.lt_succ_of_le hab) with h | h
    · exact le_trans (ih (Nat.lt_succ_iff.mp h)
        (le_trans (Nat.le_succ n) hbK)) (le_of_lt (hz n (Nat.lt_of_succ_le hbK)))
    · rw [h]

/-- Exact description of the result of the popping loop: either the stack was
exhausted (`-1`), every recorded intersection having been at or below its
boundary, or the loop stopped at the first `ke` (from above) whose boundary is
strictly below the new intersection. -/
theorem popLoop_spec (fb : ℕ → ℚ) (v : ℕ → ℕ) (z : ℕ → ℚ) (q : ℕ) (k : ℕ) :
    (popLoop fb v z q k = (-1, cross fb (v 0) q) ∧ cross fb (v 0) q ≤ z 0 ∧
      (∀ j, j ≤ k → cross fb (v j) q ≤ z j)) ∨
    (∃ ke, ke ≤ k ∧ popLoop fb v z q k = ((ke : ℤ), cross fb (v ke) q) ∧
      z ke < cross fb (v ke) q ∧ (∀ j, ke < j → j ≤ k → cross fb (v j) q ≤ z j)) := by
  induction k with
  | zero =>
    by_cases h : cross fb (v 0) q ≤ z 0
    · left
      refine ⟨by simp [popLoop, h], h, fun j hj => ?_⟩
      have : j = 0 := Nat.le_zero.mp hj
      rw [this]; exact h
    · right
      refine ⟨0, le_refl _, by simp [popLoop, h], not_le.mp h, fun j h1 h2 => ?_⟩
      omega
  | succ n ih =>
    by_cases h : cross fb (v (n + 1)) q ≤ z (n + 1)
    · have hstep : popLoop fb v z q (n + 1) = popLoop fb v z q n := by
        simp [popLoop, h]
      rcases ih with ⟨he, hle, hall⟩ | ⟨ke, hke, he, hgt, hall⟩
      · left
        refine ⟨hstep.trans he, hle, fun j hj => ?_⟩
        rcases Nat.lt_succ_iff_lt_or_eq.mp (Nat.lt_succ_of_le hj) with h' | h'
        · exact hall j (Nat.lt_succ_iff.mp h')
        · rw [h']; exact h
      · right
        refine ⟨ke, Nat.le_succ_of_le hke, hstep.trans he, hgt, fun j h1 h2 => ?_⟩
        rcases Nat.lt_succ_iff_lt_or_eq.mp (Nat.lt_succ_of_le h2) with h' | h'
        · exact hall j h1 (Nat.lt_succ_iff.mp h')
        · rw [h']; exact h
    · right
      refine ⟨n + 1, le_refl _, by simp [popLoop, h], not_le.mp h, fun j h1 h2 => ?_⟩
      omega

theorem scanStep_def (fb : ℕ → ℚ) (σ : ScanState) (q : ℕ) :
    scanStep fb σ q =
      { k := ((popLoop fb σ.v σ.z q σ.k).1 + 1).toNat,
        v := updN σ.v (((popLoop fb σ.v σ.z q σ.k).1 + 1).toNat) q,
        z := upd (upd σ.z (((popLoop fb σ.v σ.z q σ.k).1 + 1).toNat)
            (popLoop fb σ.v σ.z q σ.k).2)
          ((((popLoop fb σ.v σ.z q σ.k).1 + 1).toNat) + 1) INF } := rfl

/-- The scan-loop invariant is preserved by processing one more sample. -/
theorem scanInv_step (fb : ℕ → ℚ) {Q : ℕ} {σ : ScanState} (h : ScanInv fb Q σ) :
    ScanInv fb (Q + 1) (scanStep fb σ Q) := by
  rcases popLoop_spec fb σ.v σ.z Q σ.k with ⟨he, hle, hall⟩ | ⟨ke, hke, he, hgt, hall⟩
  · -- the loop exhausted the stack: `k` went to `-1` and is bumped back to `0`
    have hσ : scanStep fb σ Q =
        ⟨0, updN σ.v 0 Q, upd (upd σ.z 0 (cross fb (σ.v 0) Q)) 1 INF⟩ := by
      rw [scanStep_def, he]; norm_num
    rw [hσ]
    have hz0 : (upd (upd σ.z 0 (cross fb (σ.v 0) Q)) 1 INF) 0 = cross fb (σ.v 0) Q := by
      rw [upd_ne _ _ _ (by omega : (0 : ℕ) ≠ 1), upd_self]
    constructor <;> dsimp only
    · intro j hj
      have hj0 : j = 0 := Nat.le_zero.mp hj
      subst hj0
      rw [show (updN σ.v 0 Q) 0 = Q from updN_self _ _ _]
      omega
    · rw [hz0]; exact lt_of_le_of_lt hle h.z0neg
    · intro j hj; exact absurd hj (Nat.not_lt_zero j)
    · exact upd_self _ _ _
    · omega
    · intro j hj x hx hzx hup r hr
      have hj0 : j = 0 := Nat.le_zero.mp hj
      subst hj0
      rw [show (updN σ.v 0 Q) 0 = Q from updN_self _ _ _]
      rcases Nat.lt_succ_iff_lt_or_eq.mp hr with hrQ | hrQ
      · rcases slab_find σ.z σ.k x (lt_of_lt_of_le h.z0neg hx) with ⟨js, hjs, hzjs, hups⟩
        have h1 : pval fb Q x ≤ pval fb (σ.v js) x := by
          rw [pval_ge_pval_iff fb (h.vlt js hjs) x]
          exact le_trans (hall js hjs) (le_of_lt hzjs)
        exact le_trans h1 (h.slab js hjs x hx hzjs hups r hrQ)
      · subst hrQ; exact le_refl _
  · -- the loop stopped at stack position `ke`; the new sample is pushed at `ke + 1`
    have hσ : scanStep fb σ Q =
        ⟨ke + 1, updN σ.v (ke + 1) Q,
          upd (upd σ.z (ke + 1) (cross fb (σ.v ke) Q)) (ke + 2) INF⟩ := by
      rw [scanStep_def, he]
      norm_num
    rw [hσ]
    have hvtop : (updN σ.v (ke + 1) Q) (ke + 1) = Q := updN_self _ _ _
    have hvold : ∀ j, j ≠ ke + 1 → (updN σ.v (ke + 1) Q) j = σ.v j := fun j hj =>
      updN_ne _ _ _ hj
    have hznew : ∀ j, j ≠ ke + 1 → j ≠ ke + 2 →
        (upd (upd σ.z (ke + 1) (cross fb (σ.v ke) Q)) (ke + 2) INF) j = σ.z j := by
      intro j h1 h2
      rw [upd_ne _ _ _ h2, upd_ne _ _ _ h1]
    have hztop1 : (upd (upd σ.z (ke + 1) (cross fb (σ.v ke) Q)) (ke + 2) INF) (ke + 1) =
        cross fb (σ.v ke) Q := by
      rw [upd_ne _ _ _ (by omega : ke + 1 ≠ ke + 2), upd_self]
    have hztop2 : (upd (upd σ.z (ke + 1) (cross fb (σ.v ke) Q)) (ke + 2) INF) (ke + 2) =
        INF := upd_self _ _ _
    have hkeQ : σ.v ke < Q := h.vlt ke hke
    constructor <;> dsimp only
    · intro j hj
      rcases Nat.lt_succ_iff_lt_or_eq.mp (Nat.lt_succ_of_le hj) with hlt | heq
      · rw [hvold j (by omega)]
        exact Nat.lt_succ_of_lt (h.vlt j (le_trans (Nat.lt_succ_iff.mp hlt) hke))
      · rw [heq, hvtop]; omega
    · rw [hznew 0 (by omega) (by omega)]; exact h.z0neg
    · intro j hj
      rcases Nat.lt_succ_iff_lt_or_eq.mp hj with hlt | heq
      · rw [hznew j (by omega) (by omega), hznew (j + 1) (by omega) (by omega)]
        exact h.zmono j (lt_of_lt_of_le hlt hke)
      · rw [heq, hznew ke (by omega) (by omega), hztop1]
        exact hgt
    · exact hztop2
    · have := h.kbound; omega
    · intro j hj x hx hzx hup r hr
      rcases slab_find σ.z σ.k x (lt_of_lt_of_le h.z0neg hx) with ⟨js, hjs, hzjs, hups⟩
      rcases Nat.lt_succ_iff_lt_or_eq.mp (Nat.lt_succ_of_le hj) with hjlt | hjeq
      · -- `j ≤ ke`: a surviving slab
        have hjke : j ≤ ke := Nat.lt_succ_iff.mp hjlt
        rw [hvold j (by omega)]
        rw [hznew j (by omega) (by omega)] at hzx
        have hupx : x ≤ (upd (upd σ.z (ke + 1) (cross fb (σ.v ke) Q)) (ke + 2) INF)
            (j + 1) := hup (by omega)
        -- `x` is at most the new intersection
        have hxs : x ≤ cross fb (σ.v ke) Q := by
          rcases Nat.lt_or_ge j ke with hjk | hjk
          · rw [hznew (j + 1) (by omega) (by omega)] at hupx
            have hchain : σ.z (j + 1) ≤ σ.z ke :=
              zchain h.zmono (by omega) (le_trans hke (le_refl _))
            exact le_trans hupx (le_trans hchain (le_of_lt hgt))
          · have hjeq' : j = ke := le_antisymm hjke hjk
            subst hjeq'
            rw [hztop1] at hupx
            exact hupx
        -- comparison against the newly pushed parabola
        have hQ : pval fb (σ.v j) x ≤ pval fb Q x := by
          rcases Nat.lt_or_ge j ke with hjk | hjk
          · have hub : j < σ.k → x ≤ σ.z (j + 1) := by
              intro _
              rw [hznew (j + 1) (by omega) (by omega)] at hupx
              exact hupx
            have h1 : pval fb (σ.v j) x ≤ pval fb (σ.v ke) x :=
              h.slab j (le_trans hjke hke) x hx hzx hub (σ.v ke) hkeQ
            exact le_trans h1 ((pval_le_pval_iff fb hkeQ x).mpr hxs)
          · have hjeq' : j = ke := le_antisymm hjke hjk
            subst hjeq'
            exact (pval_le_pval_iff fb hkeQ x).mpr hxs
        rcases Nat.lt_succ_iff_lt_or_eq.mp hr with hrQ | hrQ
        · -- `r < Q`: handled through the located old slab `js`
          rcases Nat.lt_trichotomy js j with hlt | heq | hgt'
          · exfalso
            have h1 : σ.z (js + 1) ≤ σ.z j := zchain h.zmono (by omega) (by omega)
            have h2 : x ≤ σ.z (js + 1) := hups (by omega)
            linarith
          · subst heq
            exact h.slab js hjs x hx hzjs hups r hrQ
          · rcases Nat.lt_or_ge ke js with hkjs | hkjs
            · -- `js` was popped: dominate through the new parabola
              have h2 : pval fb Q x ≤ pval fb (σ.v js) x := by
                rw [pval_ge_pval_iff fb (h.vlt js hjs) x]
                exact le_trans (hall js hkjs hjs) (le_of_lt hzjs)
              exact le_trans hQ (le_trans h2 (h.slab js hjs x hx hzjs hups r hrQ))
            · exfalso
              have hjke' : j < ke := by omega
              rw [hznew (j + 1) (by omega) (by omega)] at hupx
              have h1 : σ.z (j + 1) ≤ σ.z js := zchain h.zmono (by omega) (by omega)
              linarith
        · subst hrQ; exact hQ
      · -- `j = ke + 1`: the newly created top slab
        subst hjeq
        rw [hvtop]
        rw [hztop1] at hzx
        rcases Nat.lt_succ_iff_lt_or_eq.mp hr with hrQ | hrQ
        · have h1 : pval fb Q x ≤ pval fb (σ.v js) x := by
            rcases Nat.lt_or_ge ke js with hkjs | hkjs
            · rw [pval_ge_pval_iff fb (h.vlt js hjs) x]
              exact le_trans (hall js hkjs hjs) (le_of_lt hzjs)
            · have hjse : js = ke := by
                rcases Nat.lt_or_ge js ke with hlt | hge
                · exfalso
                  have ha : σ.z (js + 1) ≤ σ.z ke := zchain h.zmono (by omega) (by omega)
                  have hb : x ≤ σ.z (js + 1) := hups (by omega)
                  linarith
                · omega
              subst hjse
              rw [pval_ge_pval_iff fb hkeQ x]
              exact le_of_lt hzx
          exact le_trans h1 (h.slab js hjs x hx hzjs hups r hrQ)
        · subst hrQ; exact le_refl _

/-- The invariant holds right after the initialisation
`v[0] = 0; z[0] = -INF; z[1] = INF`. -/
theorem scanInv_init (fb : ℕ → ℚ) (v0 : ℕ → ℕ) (z0 : ℕ → ℚ) :
    ScanInv fb 1 (initState v0 z0) := by
  have hz0 : (initState v0 z0).z 0 = -INF := by
    show upd (upd z0 0 (-INF)) 1 INF 0 = -INF
    rw [upd_ne _ _ _ (by omega : (0 : ℕ) ≠ 1), upd_self]
  constructor <;> dsimp only [initState]
  · intro j hj
    have hj0 : j = 0 := Nat.le_zero.mp hj
    subst hj0
    rw [updN_self]; omega
  · rw [show upd (upd z0 0 (-INF)) 1 INF 0 = -INF from hz0]
    have : (0 : ℚ) < INF := by norm_num [INF]
    linarith
  · intro j hj; exact absurd hj (Nat.not_lt_zero j)
  · exact upd_self _ _ _
  · omega
  · intro j hj x hx hzx hup r hr
    have hj0 : j = 0 := Nat.le_zero.mp hj
    subst hj0
    have hr0 : r = 0 := by omega
    subst hr0
    rw [updN_self]

/-- The scan-loop invariant after processing the samples `1..n`. -/
theorem scanInv_to (fb : ℕ → ℚ) (v0 : ℕ → ℕ) (z0 : ℕ → ℚ) :
    ∀ n, ScanInv fb (n + 1) (scanTo fb v0 z0 n) := by
  intro n
  induction n with
  | zero => exact scanInv_init fb v0 z0
  | succ m ih => exact scanInv_step fb ih

/-- The output-pass cursor, run with enough fuel, stops at the first boundary
at or beyond `q`, never walks past a position whose boundary is `≥ q`, and
keeps the boundary below it strictly below `q`. -/
theorem cursor_ok (z : ℕ → ℚ) (q : ℚ) (K : ℕ) (hK : ¬ z (K + 1) < q) :
    ∀ fuel k, k ≤ K → K ≤ k + fuel →
      cursor z q fuel k ≤ K ∧ ¬ z (cursor z q fuel k + 1) < q ∧
        (z k < q → z (cursor z q fuel k) < q) := by
  intro fuel
  induction fuel with
  | zero =>
    intro k hk hK2
    have hkK : k = K := le_antisymm hk (by omega)
    subst hkK
    exact ⟨le_refl _, hK, id⟩
  | succ n ih =>
    intro k hk hK2
    by_cases hzk : z (k + 1) < q
    · have hkK : k < K := by
        rcases Nat.lt_or_ge k K with h | h
        · exact h
        · exfalso; have : k = K := le_antisymm hk h; subst this; exact hK hzk
      have hstep : cursor z q (n + 1) k = cursor z q n (k + 1) := by
        simp [cursor, hzk]
      rw [hstep]
      rcases ih (k + 1) hkK (by omega) with ⟨h1, h2, h3⟩
      exact ⟨h1, h2, fun _ => h3 hzk⟩
    · have hstep : cursor z q (n + 1) k = k := by simp [cursor, hzk]
      rw [hstep]
      exact ⟨hk, hzk, id⟩

/-- Main output-pass invariant: after writing cells `0..n-1`, the cursor is
within the stack, the boundary at the cursor is below the next abscissa, cells
off the strided line are untouched, and (for a nonzero stride) every written
cell holds the exact lower-envelope minimum of the line. -/
theorem outTo_inv (fb : ℕ → ℚ) {L : ℕ} {σ : ScanState} (hσ : ScanInv fb L σ)
    (hLINF : (L : ℚ) ≤ INF) (off st : ℕ) (g : ℕ → ℚ) :
    ∀ n, n ≤ L →
      (outTo fb σ.v σ.z off st L g n).1 ≤ σ.k ∧
      σ.z (outTo fb σ.v σ.z off st L g n).1 < (n : ℚ) ∧
      (∀ j, (∀ i, i < n → j ≠ off + i * st) →
        (outTo fb σ.v σ.z off st L g n).2 j = g j) ∧
      (0 < st → ∀ i, i < n →
        (outTo fb σ.v σ.z off st L g n).2 (off + i * st) = lineMin fb (i : ℚ) L) := by
  intro n
  induction n with
  | zero =>
    intro _
    refine ⟨Nat.zero_le _, ?_, fun j _ => rfl, fun _ i hi => absurd hi (Nat.not_lt_zero i)⟩
    exact_mod_cast hσ.z0neg
  | succ n ih =>
    intro hn1
    rcases ih (le_trans (Nat.le_succ n) hn1) with ⟨hk, hzk, hframe, hval⟩
    have hnL : n < L := hn1
    have hKtop : ¬ σ.z (σ.k + 1) < (n : ℚ) := by
      rw [hσ.ztop]
      have h1 : (n : ℚ) < (L : ℚ) := by exact_mod_cast hnL
      linarith
    have hfuel : σ.k ≤ (outTo fb σ.v σ.z off st L g n).1 + L := by
      have := hσ.kbound; omega
    rcases cursor_ok σ.z (n : ℚ) σ.k hKtop L (outTo fb σ.v σ.z off st L g n).1 hk hfuel
      with ⟨hc1, hc2, hc3⟩
    have hstep : outTo fb σ.v σ.z off st L g (n + 1) =
        (cursor σ.z (n : ℚ) L (outTo fb σ.v σ.z off st L g n).1,
          upd (outTo fb σ.v σ.z off st L g n).2
            (off + n * st)
            (fb (σ.v (cursor σ.z (n : ℚ) L (outTo fb σ.v σ.z off st L g n).1)) +
              ((n : ℚ) - σ.v (cursor σ.z (n : ℚ) L (outTo fb σ.v σ.z off st L g n).1)) *
              ((n : ℚ) - σ.v (cursor σ.z (n : ℚ) L (outTo fb σ.v σ.z off st L g n).1)))) :=
      rfl
    set kq := cursor σ.z (n : ℚ) L (outTo fb σ.v σ.z off st L g n).1 with hkqdef
    have hzkq : σ.z kq < (n : ℚ) := hc3 hzk
    have hnew : (outTo fb σ.v σ.z off st L g (n + 1)).2 (off + n * st) =
        pval fb (σ.v kq) (n : ℚ) := by
      rw [hstep]; exact upd_self _ _ _
    have hmin : pval fb (σ.v kq) (n : ℚ) = lineMin fb (n : ℚ) L := by
      have hslab : ∀ r, r < L → pval fb (σ.v kq) (n : ℚ) ≤ pval fb r (n : ℚ) :=
        hσ.slab kq hc1 (n : ℚ) (by positivity) hzkq (fun _ => not_lt.mp hc2)
      have h1 : lineMin fb (n : ℚ) L ≤ pval fb (σ.v kq) (n : ℚ) :=
        lineMin_le fb (n : ℚ) (hσ.vlt kq hc1)
      have h2 : lineMin fb (n : ℚ) L ≥ pval fb (σ.v kq) (n : ℚ) :=
        le_lineMin fb (n : ℚ) (by omega) hslab
      exact le_antisymm h2 h1
    refine ⟨?_, ?_, ?_, ?_⟩
    · rw [hstep]; exact hc1
    · rw [hstep]
      dsimp only
      push_cast
      linarith
    · intro j hj
      rw [hstep]
      dsimp only
      rw [upd_ne _ _ _ (hj n (Nat.lt_succ_self n))]
      exact hframe j fun i hi => hj i (Nat.lt_succ_of_lt hi)
    · intro hst i hi
      rcases Nat.lt_succ_iff_lt_or_eq.mp hi with hin | hin
      · have hne : off + i * st ≠ off + n * st := by
          intro hcon
          have : i * st = n * st := by omega
          have : i = n := Nat.eq_of_mul_eq_mul_right hst this
          omega
        rw [hstep]
        dsimp only
        rw [upd_ne _ _ _ hne]
        exact hval hst i hin
      · subst hin
        rw [hnew, hmin]

/-- Characterisation of `edt1d`: with a nonzero stride, every cell of the
strided line is overwritten with the exact minimum `min_r (f[r] + (q - r)^2)`
over the line, and every other cell of the grid is untouched. -/
theorem edt1d_spec (g : ℕ → ℚ) (off st L : ℕ) (f0 : ℕ → ℚ) (v0 : ℕ → ℕ) (z0 : ℕ → ℚ)
    (hL : 0 < L) (hLINF : (L : ℚ) ≤ INF) :
    (0 < st → ∀ i, i < L → (edt1d g off st L f0 v0 z0).grid (off + i * st) =
      lineMin (fun r => g (off + r * st)) (i : ℚ) L) ∧
    (∀ j, (∀ i, i < L → j ≠ off + i * st) → (edt1d g off st L f0 v0 z0).grid j = g j) := by
  have hσ : ScanInv (lineF g off st L f0) L (scanTo (lineF g off st L f0) v0 z0 (L - 1)) := by
    have h1 := scanInv_to (lineF g off st L f0) v0 z0 (L - 1)
    have h2 : L - 1 + 1 = L := by omega
    rwa [h2] at h1
  have hout := outTo_inv (lineF g off st L f0) hσ hLINF off st g L (le_refl L)
  have hgrid : (edt1d g off st L f0 v0 z0).grid =
      (outTo (lineF g off st L f0) (scanTo (lineF g off st L f0) v0 z0 (L - 1)).v
        (scanTo (lineF g off st L f0) v0 z0 (L - 1)).z off st L g L).2 := rfl
  constructor
  · intro hst i hi
    rw [hgrid, hout.2.2.2 hst i hi]
    exact lineMin_congr (i : ℚ) fun r hr => by simp [lineF, hr]
  · intro j hj
    rw [hgrid]
    exact hout.2.2.1 j hj

/-- Cells of two distinct columns never alias. -/
theorem stride_ne {w a b : ℕ} (ha : a < w) (hb : b < w) (hne : a ≠ b) (i j : ℕ) :
    a + i * w ≠ b + j * w := by
  intro hcon
  apply hne
  have h1 : (a + i * w) % w = a % w := Nat.add_mul_mod_self_right a i w
  have h2 : (b + j * w) % w = b % w := Nat.add_mul_mod_self_right b j w
  rw [hcon, h2] at h1
  rw [Nat.mod_eq_of_lt hb, Nat.mod_eq_of_lt ha] at h1
  exact h1.symm

/-- Cells of two distinct rows never alias. -/
theorem rowcell_ne {w y yb i j : ℕ} (hi : i < w) (hj : j < w) (hne : y ≠ yb) :
    y * w + i ≠ yb * w + j := by
  intro hcon
  apply hne
  have hw : 0 < w := by omega
  have h1 : (y * w + i) / w = y := by
    rw [Nat.add_comm, Nat.add_mul_div_right _ _ hw, Nat.div_eq_of_lt hi]; omega
  have h2 : (yb * w + j) / w = yb := by
    rw [Nat.add_comm, Nat.add_mul_div_right _ _ hw, Nat.div_eq_of_lt hj]; omega
  rw [hcon, h2] at h1
  exact h1.symm

/-- After the first `n` column passes, processed columns hold their 1D column
minima and everything else is untouched. -/
theorem edtCols_inv (S : EdtState) (w h : ℕ)
    (hw : 0 < w) (hh : 0 < h) (hhI : (h : ℚ) ≤ INF) :
    ∀ n, n ≤ w →
      (∀ x, x < n → ∀ i, i < h →
        (edtColsTo w h S n).grid (x + i * w) =
          lineMin (fun r => S.grid (x + r * w)) (i : ℚ) h) ∧
      (∀ j, (∀ x, x < n → ∀ i, i < h → j ≠ x + i * w) →
        (edtColsTo w h S n).grid j = S.grid j) := by
  intro n
  induction n with
  | zero =>
    intro _
    exact ⟨fun x hx => absurd hx (Nat.not_lt_zero x), fun j _ => rfl⟩
  | succ n ih =>
    intro hn1
    rcases ih (le_trans (Nat.le_succ n) hn1) with ⟨iha, ihb⟩
    have hnw : n < w := hn1
    set sn := edtColsTo w h S n with hsn
    have hspec := edt1d_spec sn.grid n w h sn.f sn.v sn.z hh hhI
    have hstep : edtColsTo w h S (n + 1) = edt1dOn sn n w h := rfl
    have hgrid : (edt1dOn sn n w h).grid = (edt1d sn.grid n w h sn.f sn.v sn.z).grid := rfl
    constructor
    · intro x hx i hi
      rw [hstep, hgrid]
      rcases Nat.lt_succ_iff_lt_or_eq.mp hx with hxn | hxn
      · rw [hspec.2 (x + i * w) fun ib hib =>
          stride_ne (lt_trans hxn hnw) hnw (by omega) i ib]
        exact iha x hxn i hi
      · subst hxn
        rw [hspec.1 hw i hi]
        refine lineMin_congr (i : ℚ) fun r hr => ?_
        exact ihb (x + r * w) fun xb hxb ib hib =>
          stride_ne hnw (lt_trans hxb hnw) (by omega) r ib
    · intro j hj
      rw [hstep, hgrid]
      rw [hspec.2 j fun ib hib => hj n (Nat.lt_succ_self n) ib hib]
      exact ihb j fun xb hxb ib hib => hj xb (Nat.lt_succ_of_lt hxb) ib hib

/-- After the first `n` row passes on a state `S`, processed rows hold their 1D
row minima over `S` and everything else is untouched. -/
theorem edtRows_inv (S : EdtState) (w : ℕ) (hw : 0 < w) (hwI : (w : ℚ) ≤ INF) :
    ∀ n,
      (∀ y, y < n → ∀ i, i < w →
        (edtRowsTo w S n).grid (y * w + i) =
          lineMin (fun r => S.grid (y * w + r)) (i : ℚ) w) ∧
      (∀ j, (∀ y, y < n → ∀ i, i < w → j ≠ y * w + i) →
        (edtRowsTo w S n).grid j = S.grid j) := by
  intro n
  induction n with
  | zero => exact ⟨fun y hy => absurd hy (Nat.not_lt_zero y), fun j _ => rfl⟩
  | succ n ih =>
    rcases ih with ⟨iha, ihb⟩
    set sn := edtRowsTo w S n with hsn
    have hspec := edt1d_spec sn.grid (n * w) 1 w sn.f sn.v sn.z hw hwI
    have hstep : edtRowsTo w S (n + 1) = edt1dOn sn (n * w) 1 w := rfl
    have hgrid : (edt1dOn sn (n * w) 1 w).grid =
      (edt1d sn.grid (n * w) 1 w sn.f sn.v sn.z).grid := rfl
    have hone : ∀ i : ℕ, n * w + i * 1 = n * w + i := fun i => by omega
    constructor
    · intro y hy i hi
      rw [hstep, hgrid]
      rcases Nat.lt_succ_iff_lt_or_eq.mp hy with hyn | hyn
      · rw [hspec.2 (y * w + i) fun ib hib => by
          rw [hone ib]; exact rowcell_ne hi hib (by omega)]
        exact iha y hyn i hi
      · subst hyn
        have hfin := hspec.1 (by omega) i hi
        rw [hone i] at hfin
        rw [hfin]
        refine lineMin_congr (i : ℚ) fun r hr => ?_
        rw [hone r]
        exact ihb (y * w + r) fun yb hyb ib hib => rowcell_ne hr hib (by omega)
    · intro j hj
      rw [hstep, hgrid]
      rw [hspec.2 j fun ib hib => by
        rw [hone ib]; exact hj n (Nat.lt_succ_self n) ib hib]
      exact ihb j fun yb hyb ib hib => hj yb (Nat.lt_succ_of_lt hyb) ib hib

/-- Characterisation of the 2D transform `edt`: every cell `(x, y)` of the
`width × height` grid ends up holding
`min over (rx, ry) of (g (ry * w + rx) + (y - ry)^2 + (x - rx)^2)`, expressed
as nested line minima, and cells beyond the grid are untouched. -/
theorem edt_spec (g : ℕ → ℚ) (w h : ℕ) (f0 : ℕ → ℚ) (v0 : ℕ → ℕ) (z0 : ℕ → ℚ)
    (hw : 0 < w) (hh : 0 < h) (hwI : (w : ℚ) ≤ INF) (hhI : (h : ℚ) ≤ INF) :
    (∀ x, x < w → ∀ y, y < h →
      (edt g w h f0 v0 z0).grid (y * w + x) =
        lineMin (fun rx => lineMin (fun ry => g (ry * w + rx)) (y : ℚ) h) (x : ℚ) w) ∧
    (∀ j, (∀ x, x < w → ∀ y, y < h → j ≠ y * w + x) →
      (edt g w h f0 v0 z0).grid j = g j) := by
  set S := edtColsTo w h ⟨g, f0, v0, z0⟩ w with hS
  have hcols := edtCols_inv ⟨g, f0, v0, z0⟩ w h hw hh hhI w (le_refl w)
  have hrows := edtRows_inv S w hw hwI h
  have hedt : edt g w h f0 v0 z0 = edtRowsTo w S h := rfl
  constructor
  · intro x hx y hy
    rw [hedt, (hrows.1 y hy x hx)]
    refine lineMin_congr (x : ℚ) fun r hr => ?_
    have hcomm : y * w + r = r + y * w := Nat.add_comm _ _
    rw [hcomm, hcols.1 r hr y hy]
    refine lineMin_congr (y : ℚ) fun rb hrb => ?_
    have : r + rb * w = rb * w + r := Nat.add_comm _ _
    rw [this]
  · intro j hj
    rw [hedt]
    rw [hrows.2 j fun yb hyb ib hib => hj ib hib yb hyb]
    exact hcols.2 j fun xb hxb ib hib => by
      have : xb + ib * w = ib * w + xb := Nat.add_comm _ _
      rw [this]; exact hj xb hxb ib hib

/-- The line minimum of a "one low cell at `p`, sentinel elsewhere" line is the
low parabola's value, as long as that value does not exceed the sentinel. -/
theorem lineMin_delta (c : ℚ) (p L : ℕ) (hp : p < L) (x : ℚ)
    (hbound : c + (x - p) * (x - p) ≤ INF) :
    lineMin (fun r => if r = p then c else INF) x L = c + (x - p) * (x - p) := by
  refine le_antisymm ?_ ?_
  · have h1 := lineMin_le (fun r => if r = p then c else INF) x hp
    simpa [pval] using h1
  · refine le_lineMin _ _ (by omega) fun r hr => ?_
    by_cases hrp : r = p
    · subst hrp; simp [pval]
    · have h2 : (0 : ℚ) ≤ (x - r) * (x - r) := mul_self_nonneg _
      simp only [pval, if_neg hrp]
      linarith

/-- The line minimum of a constant line, evaluated at one of its own sample
positions, is that constant. -/
theorem lineMin_const (c : ℚ) {L n : ℕ} (hn : n < L) :
    lineMin (fun _ => c) (n : ℚ) L = c := by
  refine le_antisymm ?_ ?_
  · have h1 := lineMin_le (fun _ => c) (n : ℚ) hn
    simpa [pval] using h1
  · refine le_lineMin _ _ (by omega) fun r hr => ?_
    have h2 : (0 : ℚ) ≤ ((n : ℚ) - r) * ((n : ℚ) - r) := mul_self_nonneg _
    simp only [pval]
    linarith

/-- Squared distance between two grid coordinates below `n` is at most
`(n - 1)^2`. -/
theorem sq_diff_le {a b n : ℕ} (ha : a < n) (hb : b < n) :
    ((a : ℚ) - b) * ((a : ℚ) - b) ≤ ((n : ℚ) - 1) * ((n : ℚ) - 1) := by
  have h1 : (a : ℚ) ≤ (n : ℚ) - 1 := by
    have : (a : ℚ) + 1 ≤ n := by exact_mod_cast ha
    linarith
  have h2 : (b : ℚ) ≤ (n : ℚ) - 1 := by
    have : (b : ℚ) + 1 ≤ n := by exact_mod_cast hb
    linarith
  have h3 : (0 : ℚ) ≤ a := Nat.cast_nonneg a
  have h4 : (0 : ℚ) ≤ b := Nat.cast_nonneg b
  nlinarith

/-- One direction of exchanging the two nesting orders of a double line
minimum. -/
theorem nested_le (A : ℕ → ℕ → ℚ) (w h : ℕ) (hw : 0 < w) (hh : 0 < h) (x y : ℚ) :
    lineMin (fun rx => lineMin (fun ry => A rx ry) y h) x w ≤
    lineMin (fun ry => lineMin (fun rx => A rx ry) x w) y h := by
  refine le_lineMin _ _ hh fun ry0 hry0 => ?_
  rcases lineMin_exists (fun rx => A rx ry0) x hw with ⟨rx0, hrx0, hval⟩
  have h1 := lineMin_le (fun rx => lineMin (fun ry => A rx ry) y h) x hrx0
  have h2 := lineMin_le (fun ry => A rx0 ry) y hry0
  simp only [pval] at h1 h2 hval ⊢
  rw [hval]
  linarith

/-- Exchanging the nesting order of a double line minimum. -/
theorem nested_swap (A : ℕ → ℕ → ℚ) (w h : ℕ) (hw : 0 < w) (hh : 0 < h) (x y : ℚ) :
    lineMin (fun rx => lineMin (fun ry => A rx ry) y h) x w =
    lineMin (fun ry => lineMin (fun rx => A rx ry) x w) y h :=
  le_antisymm (nested_le A w h hw hh x y) (nested_le (fun ry rx => A rx ry) h w hh hw y x)

/-- Characterisation of the spec-ordered transform `edtRowsFirst`: it writes
the same separable minima, nested in the other order. -/
theorem edtRowsFirst_spec (g : ℕ → ℚ) (w h : ℕ) (f0 : ℕ → ℚ) (v0 : ℕ → ℕ) (z0 : ℕ → ℚ)
    (hw : 0 < w) (hh : 0 < h) (hwI : (w : ℚ) ≤ INF) (hhI : (h : ℚ) ≤ INF) :
    (∀ x, x < w → ∀ y, y < h →
      (edtRowsFirst g w h f0 v0 z0).grid (y * w + x) =
        lineMin (fun ry => lineMin (fun rx => g (ry * w + rx)) (x : ℚ) w) (y : ℚ) h) ∧
    (∀ j, (∀ x, x < w → ∀ y, y < h → j ≠ y * w + x) →
      (edtRowsFirst g w h f0 v0 z0).grid j = g j) := by
  set R := edtRowsTo w ⟨g, f0, v0, z0⟩ h with hR
  have hrows := edtRows_inv ⟨g, f0, v0, z0⟩ w hw hwI h
  have hcols := edtCols_inv R w h hw hh hhI w (le_refl w)
  have hedt : edtRowsFirst g w h f0 v0 z0 = edtColsTo w h R w := rfl
  constructor
  · intro x hx y hy
    have hcomm : y * w + x = x + y * w := Nat.add_comm _ _
    rw [hedt, hcomm, hcols.1 x hx y hy]
    refine lineMin_congr (y : ℚ) fun r hr => ?_
    have hcomm2 : x + r * w = r * w + x := Nat.add_comm _ _
    rw [hcomm2, hrows.1 r hr x hx]
  · intro j hj
    rw [hedt]
    rw [hcols.2 j fun xb hxb ib hib => by
      have : xb + ib * w = ib * w + xb := Nat.add_comm _ _
      rw [this]; exact hj xb hxb ib hib]
    exact hrows.2 j fun yb hyb ib hib => hj ib hib yb hyb

/-- Reflecting the sample index inside a line minimum reflects the evaluation
point (one inequality direction). -/
theorem lineMin_reflect_le (F : ℕ → ℚ) (w : ℕ) (hw : 0 < w) (x : ℕ) (hx : x < w) :
    lineMin (fun r => F (w - 1 - r)) ((x : ℕ) : ℚ) w ≤
      lineMin F (((w - 1 - x : ℕ) : ℕ) : ℚ) w := by
  refine le_lineMin _ _ hw fun r hr => ?_
  have hr' : w - 1 - r < w := by omega
  have h1 := lineMin_le (fun r' => F (w - 1 - r')) ((x : ℕ) : ℚ) hr'
  have hrr : w - 1 - (w - 1 - r) = r := by omega
  simp only [pval, hrr] at h1 ⊢
  have hc1 : ((w - 1 - r : ℕ) : ℚ) = (w : ℚ) - 1 - r := by
    rw [Nat.cast_sub (by omega : r ≤ w - 1), Nat.cast_sub (by omega : 1 ≤ w)]
    norm_num
  have hc2 : ((w - 1 - x : ℕ) : ℚ) = (w : ℚ) - 1 - x := by
    rw [Nat.cast_sub (by omega : x ≤ w - 1), Nat.cast_sub (by omega : 1 ≤ w)]
    norm_num
  rw [hc1] at h1
  rw [hc2]
  have heq : (((w : ℚ) - 1 - x) - r) * (((w : ℚ) - 1 - x) - r) =
      ((x : ℚ) - ((w : ℚ) - 1 - r)) * ((x : ℚ) - ((w : ℚ) - 1 - r)) := by ring
  rw [heq]
  exact h1

/-- Reflecting the sample index inside a line minimum reflects the evaluation
point. -/
theorem lineMin_reflect (F : ℕ → ℚ) (w : ℕ) (hw : 0 < w) (x : ℕ) (hx : x < w) :
    lineMin (fun r => F (w - 1 - r)) ((x : ℕ) : ℚ) w =
      lineMin F (((w - 1 - x : ℕ)) : ℚ) w := by
  refine le_antisymm (lineMin_reflect_le F w hw x hx) ?_
  have h2 := lineMin_reflect_le (fun r => F (w - 1 - r)) w hw (w - 1 - x) (by omega)
  have hxx : w - 1 - (w - 1 - x) = x := by omega
  rw [hxx] at h2
  have hcong : lineMin (fun r => F (w - 1 - (w - 1 - r))) (((w - 1 - x : ℕ)) : ℚ) w =
      lineMin F (((w - 1 - x : ℕ)) : ℚ) w :=
    lineMin_congr _ fun r hr => by rw [show w - 1 - (w - 1 - r) = r by omega]
  rw [hcong] at h2
  exact h2

/-- Division and remainder of a canonical cell index. -/
theorem cell_div_mod {w y x : ℕ} (hx : x < w) :
    (y * w + x) / w = y ∧ (y * w + x) % w = x := by
  have hw : 0 < w := by omega
  constructor
  · rw [Nat.add_comm, Nat.add_mul_div_right _ _ hw, Nat.div_eq_of_lt hx]
    omega
  · rw [Nat.add_comm, Nat.add_mul_mod_self_right, Nat.mod_eq_of_lt hx]

/-- Canonical cell indices determine the coordinates. -/
theorem cell_inj {w y1 y2 x1 x2 : ℕ} (h1 : x1 < w) (h2 : x2 < w)
    (he : y1 * w + x1 = y2 * w + x2) : y1 = y2 ∧ x1 = x2 := by
  have hd1 := cell_div_mod (y := y1) h1
  have hd2 := cell_div_mod (y := y2) h2
  rw [he] at hd1
  refine ⟨?_, ?_⟩
  · rw [← hd1.1, hd2.1]
  · rw [← hd1.2, hd2.2]

/-- A canonical cell index lies inside the flattened grid. -/
theorem cell_lt {w h y x : ℕ} (hx : x < w) (hy : y < h) : y * w + x < w * h := by
  have e2 : (y + 1) * w ≤ h * w := Nat.mul_le_mul_right _ (Nat.succ_le_of_lt hy)
  have e1 : y * w + x < (y + 1) * w := by
    have e0 : (y + 1) * w = y * w + w := by ring
    rw [e0]
    exact Nat.add_lt_add_left hx _
  rw [Nat.mul_comm w h]
  exact lt_of_lt_of_le e1 e2

/-- The output pass only ever writes cells of its own strided line. -/
theorem outTo_frame (fb : ℕ → ℚ) (v : ℕ → ℕ) (z : ℕ → ℚ) (off st L : ℕ) (g : ℕ → ℚ) :
    ∀ n j, (∀ i, i < n → j ≠ off + i * st) → (outTo fb v z off st L g n).2 j = g j := by
  intro n
  induction n with
  | zero => intro j _; rfl
  | succ n ih =>
    intro j hj
    have h1 : (outTo fb v z off st L g (n + 1)).2 j = (outTo fb v z off st L g n).2 j := by
      show upd _ (off + n * st) _ j = _
      exact upd_ne _ _ _ (hj n (Nat.lt_succ_self n))
    rw [h1]
    exact ih j fun i hi => hj i (Nat.lt_succ_of_lt hi)

/-- Early return of `draw` on a degenerate glyph (src/index.js line 72). -/
theorem draw_early (m : Metrics) (img : ℕ → ℕ) (radius cutoff : ℚ)
    (gO0 gI0 f0 : ℕ → ℚ) (v0 : ℕ → ℕ) (z0 : ℕ → ℚ)
    (h : m.glyphWidth = 0 ∨ m.glyphHeight = 0) :
    draw m img radius cutoff gO0 gI0 f0 v0 z0 =
      { data := fun _ => 0, dataLen := m.width * m.height, width := m.width,
        height := m.height, glyphWidth := m.glyphWidth, glyphHeight := m.glyphHeight,
        glyphTop := m.glyphTop, glyphLeft := m.glyphLeft,
        glyphAdvance := m.glyphAdvance } := by
  unfold draw
  rw [if_pos h]

/-- The byte buffer written by `draw` on a non-degenerate glyph. -/
theorem draw_data_eq (m : Metrics) (img : ℕ → ℕ) (radius cutoff : ℚ)
    (gO0 gI0 f0 : ℕ → ℚ) (v0 : ℕ → ℕ) (z0 : ℕ → ℚ)
    (h : ¬(m.glyphWidth = 0 ∨ m.glyphHeight = 0)) :
    (draw m img radius cutoff gO0 gI0 f0 v0 z0).data = fun i =>
      if i < m.width * m.height then
        clampByte (round ((255 : ℝ) -
          255 * ((Real.sqrt (((drawOuterEdt m img gO0 gI0 f0 v0 z0).grid i : ℚ) : ℝ) -
            Real.sqrt (((drawInnerEdt m img gO0 gI0 f0 v0 z0).grid i : ℚ) : ℝ)) /
              ((radius : ℚ) : ℝ) + ((cutoff : ℚ) : ℝ))))
      else 0 := by
  unfold draw
  rw [if_neg h]

/-- One row of the seeding loop never writes outside its own pixels. -/
theorem seedRow_frame (m : Metrics) (img : ℕ → ℕ) (y : ℕ) (p : (ℕ → ℚ) × (ℕ → ℚ)) :
    ∀ n j, (∀ x, x < n → j ≠ seedIdx m x y) →
      (seedRow m img y p n).1 j = p.1 j ∧ (seedRow m img y p n).2 j = p.2 j := by
  intro n
  induction n with
  | zero => intro j _; exact ⟨rfl, rfl⟩
  | succ n ih =>
    intro j hj
    have hne := hj n (Nat.lt_succ_self n)
    have ih' := ih j fun x hx => hj x (Nat.lt_succ_of_lt hx)
    constructor
    · show upd (seedRow m img y p n).1 (seedIdx m n y) _ j = _
      rw [upd_ne _ _ _ hne]
      exact ih'.1
    · show upd (seedRow m img y p n).2 (seedIdx m n y) _ j = _
      rw [upd_ne _ _ _ hne]
      exact ih'.2

theorem seedIdx_assoc (m : Metrics) (x y : ℕ) :
    seedIdx m x y = (y + drawOffset m) * m.width + (x + drawOffset m) := by
  unfold seedIdx
  ring

/-- Distinct glyph pixels have distinct canvas indices (when the glyph row
fits inside the canvas width). -/
theorem seedIdx_inj (m : Metrics) (hw : drawOffset m + m.glyphWidth ≤ m.width)
    {x1 y1 x2 y2 : ℕ} (h1 : x1 < m.glyphWidth) (h2 : x2 < m.glyphWidth)
    (he : seedIdx m x1 y1 = seedIdx m x2 y2) : x1 = x2 ∧ y1 = y2 := by
  rw [seedIdx_assoc, seedIdx_assoc] at he
  have h := cell_inj (by omega) (by omega) he
  exact ⟨by omega, by omega⟩

/-- Each pixel of a fully processed row holds its seed values. -/
theorem seedRow_at (m : Metrics) (img : ℕ → ℕ) (y : ℕ) (p : (ℕ → ℚ) × (ℕ → ℚ))
    (hw : drawOffset m + m.glyphWidth ≤ m.width) :
    ∀ n x, x < n → n ≤ m.glyphWidth →
      (seedRow m img y p n).1 (seedIdx m x y) =
        outerSeed (alphaAt img m.glyphWidth x y) ∧
      (seedRow m img y p n).2 (seedIdx m x y) =
        innerSeed (alphaAt img m.glyphWidth x y) := by
  intro n
  induction n with
  | zero => intro x hx _; exact absurd hx (Nat.not_lt_zero x)
  | succ n ih =>
    intro x hx hn
    rcases Nat.lt_succ_iff_lt_or_eq.mp hx with hxn | hxn
    · have hne : seedIdx m x y ≠ seedIdx m n y := fun hcon => by
        have := seedIdx_inj m hw (by omega) (by omega) hcon
        omega
      have ih' := ih x hxn (by omega)
      constructor
      · show upd (seedRow m img y p n).1 (seedIdx m n y) _ (seedIdx m x y) = _
        rw [upd_ne _ _ _ hne]
        exact ih'.1
      · show upd (seedRow m img y p n).2 (seedIdx m n y) _ (seedIdx m x y) = _
        rw [upd_ne _ _ _ hne]
        exact ih'.2
    · subst hxn
      exact ⟨upd_self _ _ _, upd_self _ _ _⟩

/-- The seeding loops never write outside the glyph rectangle's pixels. -/
theorem seedAll_frame (m : Metrics) (img : ℕ → ℕ) (p : (ℕ → ℚ) × (ℕ → ℚ)) :
    ∀ n j, (∀ x, x < m.glyphWidth → ∀ y, y < n → j ≠ seedIdx m x y) →
      (seedAll m img p n).1 j = p.1 j ∧ (seedAll m img p n).2 j = p.2 j := by
  intro n
  induction n with
  | zero => intro j _; exact ⟨rfl, rfl⟩
  | succ n ih =>
    intro j hj
    have hrow := seedRow_frame m img n (seedAll m img p n) m.glyphWidth j
      (fun x hx => hj x hx n (Nat.lt_succ_self n))
    have ih' := ih j fun x hx y hy => hj x hx y (Nat.lt_succ_of_lt hy)
    exact ⟨hrow.1.trans ih'.1, hrow.2.trans ih'.2⟩

/-- Every glyph pixel of the fully seeded grids holds its seed values,
independently of the incoming grid contents. -/
theorem seedAll_at (m : Metrics) (img : ℕ → ℕ) (p : (ℕ → ℚ) × (ℕ → ℚ))
    (hw : drawOffset m + m.glyphWidth ≤ m.width) :
    ∀ n x y, x < m.glyphWidth → y < n →
      (seedAll m img p n).1 (seedIdx m x y) =
        outerSeed (alphaAt img m.glyphWidth x y) ∧
      (seedAll m img p n).2 (seedIdx m x y) =
        innerSeed (alphaAt img m.glyphWidth x y) := by
  intro n
  induction n with
  | zero => intro x y _ hy; exact absurd hy (Nat.not_lt_zero y)
  | succ n ih =>
    intro x y hx hy
    rcases Nat.lt_succ_iff_lt_or_eq.mp hy with hyn | hyn
    · have hrow := seedRow_frame m img n (seedAll m img p n) m.glyphWidth (seedIdx m x y)
        (fun xb hxb hcon => by
          have := seedIdx_inj m hw hx hxb hcon
          omega)
      have ih' := ih x y hx hyn
      exact ⟨hrow.1.trans ih'.1, hrow.2.trans ih'.2⟩
    · subst hyn
      exact seedRow_at m img y (seedAll m img p y) hw m.glyphWidth x hx (le_refl _)

/-- Seeding preserves pointwise agreement of the two incoming grid pairs. -/
theorem seedRow_agree (m : Metrics) (img : ℕ → ℕ) (y : ℕ)
    (p pb : (ℕ → ℚ) × (ℕ → ℚ)) (j : ℕ) (h1 : p.1 j = pb.1 j) (h2 : p.2 j = pb.2 j) :
    ∀ n, (seedRow m img y p n).1 j = (seedRow m img y pb n).1 j ∧
      (seedRow m img y p n).2 j = (seedRow m img y pb n).2 j := by
  intro n
  induction n with
  | zero => exact ⟨h1, h2⟩
  | succ n ih =>
    constructor
    · show upd (seedRow m img y p n).1 (seedIdx m n y) _ j =
        upd (seedRow m img y pb n).1 (seedIdx m n y) _ j
      by_cases hj : j = seedIdx m n y
      · subst hj; rw [upd_self, upd_self]
      · rw [upd_ne _ _ _ hj, upd_ne _ _ _ hj]; exact ih.1
    · show upd (seedRow m img y p n).2 (seedIdx m n y) _ j =
        upd (seedRow m img y pb n).2 (seedIdx m n y) _ j
      by_cases hj : j = seedIdx m n y
      · subst hj; rw [upd_self, upd_self]
      · rw [upd_ne _ _ _ hj, upd_ne _ _ _ hj]; exact ih.2

theorem seedAll_agree (m : Metrics) (img : ℕ → ℕ)
    (p pb : (ℕ → ℚ) × (ℕ → ℚ)) (j : ℕ) (h1 : p.1 j = pb.1 j) (h2 : p.2 j = pb.2 j) :
    ∀ n, (seedAll m img p n).1 j = (seedAll m img pb n).1 j ∧
      (seedAll m img p n).2 j = (seedAll m img pb n).2 j := by
  intro n
  induction n with
  | zero => exact ⟨h1, h2⟩
  | succ n ih =>
    exact seedRow_agree m img n (seedAll m img p n) (seedAll m img pb n) j
      ih.1 ih.2 m.glyphWidth

/-- The transform `edt` only reads the grid's own cells: two grids agreeing on all cells
are transformed to equal values on all cells. -/
theorem edt_agree (gA gB : ℕ → ℚ) (w h : ℕ) (fA : ℕ → ℚ) (vA : ℕ → ℕ) (zA : ℕ → ℚ)
    (fB : ℕ → ℚ) (vB : ℕ → ℕ) (zB : ℕ → ℚ)
    (hw : 0 < w) (hh : 0 < h) (hwI : (w : ℚ) ≤ INF) (hhI : (h : ℚ) ≤ INF)
    (hagree : ∀ x, x < w → ∀ y, y < h → gA (y * w + x) = gB (y * w + x)) :
    ∀ x, x < w → ∀ y, y < h →
      (edt gA w h fA vA zA).grid (y * w + x) = (edt gB w h fB vB zB).grid (y * w + x) := by
  intro x hx y hy
  rw [(edt_spec gA w h fA vA zA hw hh hwI hhI).1 x hx y hy,
    (edt_spec gB w h fB vB zB hw hh hwI hhI).1 x hx y hy]
  refine lineMin_congr (x : ℚ) fun rx hrx => ?_
  refine lineMin_congr (y : ℚ) fun ry hry => ?_
  exact hagree rx hrx ry hry

/-- Claim C10: a call `edt1d(grid, offset, stride, length, f, v, z)` modifies
only the cells `grid[offset + i * stride]` for `0 ≤ i < length`; every other
element of the grid keeps its previous value (so each row pass of `edt` leaves
all other rows untouched, and each column pass all other columns). -/
theorem claim_C10 (g : ℕ → ℚ) (off st L : ℕ) (f0 : ℕ → ℚ) (v0 : ℕ → ℕ) (z0 : ℕ → ℚ)
    (j : ℕ) (hj : ∀ i, i < L → j ≠ off + i * st) :
    (edt1d g off st L f0 v0 z0).grid j = g j :=
  outTo_frame (lineF g off st L f0)
    (scanTo (lineF g off st L f0) v0 z0 (L - 1)).v
    (scanTo (lineF g off st L f0) v0 z0 (L - 1)).z off st L g L j hj

/-- Witness for C10 at a concrete call: cell 5 is outside the two-cell line
starting at offset 0 with stride 1, and is indeed left unchanged. -/
theorem claim_C10_witness :
    (∀ i, i < 2 → (5 : ℕ) ≠ 0 + i * 1) ∧
    (edt1d (fun _ => (3 : ℚ)) 0 1 2 (fun _ => 0) (fun _ => 0) (fun _ => 0)).grid 5 = 3 :=
  ⟨by decide, claim_C10 (fun _ => (3 : ℚ)) 0 1 2 (fun _ => 0) (fun _ => 0) (fun _ => 0)
    5 (by decide)⟩

/-- Claim C9: the grid contents produced by `edt1d` (and hence by `edt`) do not
depend on the incoming contents of the scratch buffers `f`, `v`, `z`: two runs
that differ only in the initial scratch contents produce identical grids.  The
last conjunct extends this to the byte buffer of `draw`, whose reusable
per-instance buffers (the two grids and the scratch) may also start dirty. -/
theorem claim_C9 (gl gg : ℕ → ℚ) (off st L w h : ℕ)
    (f0 fb0 : ℕ → ℚ) (v0 vb0 : ℕ → ℕ) (z0 zb0 : ℕ → ℚ)
    (hst : 0 < st) (hL : 0 < L) (hLI : (L : ℚ) ≤ INF)
    (hw : 0 < w) (hh : 0 < h) (hwI : (w : ℚ) ≤ INF) (hhI : (h : ℚ) ≤ INF) :
    (∀ j, (edt1d gl off st L f0 v0 z0).grid j = (edt1d gl off st L fb0 vb0 zb0).grid j) ∧
    (∀ j, (edt gg w h f0 v0 z0).grid j = (edt gg w h fb0 vb0 zb0).grid j) ∧
    (∀ (m : Metrics) (img : ℕ → ℕ) (radius cutoff : ℚ) (gO0 gI0 gOb0 gIb0 : ℕ → ℚ),
      (m.width : ℚ) ≤ INF → (m.height : ℚ) ≤ INF → ∀ i,
      (draw m img radius cutoff gO0 gI0 f0 v0 z0).data i =
        (draw m img radius cutoff gOb0 gIb0 fb0 vb0 zb0).data i) := by
  refine ⟨?_, ?_, ?_⟩
  · intro j
    by_cases hj : ∃ i, i < L ∧ j = off + i * st
    · obtain ⟨i, hi, rfl⟩ := hj
      rw [(edt1d_spec gl off st L f0 v0 z0 hL hLI).1 hst i hi,
        (edt1d_spec gl off st L fb0 vb0 zb0 hL hLI).1 hst i hi]
    · push_neg at hj
      rw [(edt1d_spec gl off st L f0 v0 z0 hL hLI).2 j hj,
        (edt1d_spec gl off st L fb0 vb0 zb0 hL hLI).2 j hj]
  · intro j
    by_cases hj : ∃ x, x < w ∧ ∃ y, y < h ∧ j = y * w + x
    · obtain ⟨x, hx, y, hy, rfl⟩ := hj
      rw [(edt_spec gg w h f0 v0 z0 hw hh hwI hhI).1 x hx y hy,
        (edt_spec gg w h fb0 vb0 zb0 hw hh hwI hhI).1 x hx y hy]
    · push_neg at hj
      rw [(edt_spec gg w h f0 v0 z0 hw hh hwI hhI).2 j hj,
        (edt_spec gg w h fb0 vb0 zb0 hw hh hwI hhI).2 j hj]
  · intro m img radius cutoff gO0 gI0 gOb0 gIb0 hWI hHI i
    by_cases he : m.glyphWidth = 0 ∨ m.glyphHeight = 0
    · rw [draw_early m img radius cutoff gO0 gI0 f0 v0 z0 he,
        draw_early m img radius cutoff gOb0 gIb0 fb0 vb0 zb0 he]
    · rw [draw_data_eq m img radius cutoff gO0 gI0 f0 v0 z0 he,
        draw_data_eq m img radius cutoff gOb0 gIb0 fb0 vb0 zb0 he]
      dsimp only
      by_cases hi : i < m.width * m.height
      · rw [if_pos hi, if_pos hi]
        have hW : 0 < m.width := by
          rcases Nat.eq_zero_or_pos m.width with h0 | h0
          · rw [h0] at hi; simp at hi
          · exact h0
        have hH : 0 < m.height := by
          rcases Nat.eq_zero_or_pos m.height with h0 | h0
          · rw [h0] at hi; simp at hi
          · exact h0
        have hagree1 : ∀ x, x < m.width → ∀ y, y < m.height →
            (seededGrids m img gO0 gI0).1 (y * m.width + x) =
              (seededGrids m img gOb0 gIb0).1 (y * m.width + x) := by
          intro x hx y hy
          have hfill : (fillGrids m gO0 gI0).1 (y * m.width + x) =
              (fillGrids m gOb0 gIb0).1 (y * m.width + x) := by
            show (if y * m.width + x < m.width * m.height then INF else _) =
              (if y * m.width + x < m.width * m.height then INF else _)
            rw [if_pos (cell_lt hx hy), if_pos (cell_lt hx hy)]
          have hfill2 : (fillGrids m gO0 gI0).2 (y * m.width + x) =
              (fillGrids m gOb0 gIb0).2 (y * m.width + x) := by
            show (if y * m.width + x < m.width * m.height then (0 : ℚ) else _) =
              (if y * m.width + x < m.width * m.height then (0 : ℚ) else _)
            rw [if_pos (cell_lt hx hy), if_pos (cell_lt hx hy)]
          exact (seedAll_agree m img _ _ _ hfill hfill2 m.glyphHeight).1
        have hagree2 : ∀ x, x < m.width → ∀ y, y < m.height →
            (seededGrids m img gO0 gI0).2 (y * m.width + x) =
              (seededGrids m img gOb0 gIb0).2 (y * m.width + x) := by
          intro x hx y hy
          have hfill : (fillGrids m gO0 gI0).1 (y * m.width + x) =
              (fillGrids m gOb0 gIb0).1 (y * m.width + x) := by
            show (if y * m.width + x < m.width * m.height then INF else _) =
              (if y * m.width + x < m.width * m.height then INF else _)
            rw [if_pos (cell_lt hx hy), if_pos (cell_lt hx hy)]
          have hfill2 : (fillGrids m gO0 gI0).2 (y * m.width + x) =
              (fillGrids m gOb0 gIb0).2 (y * m.width + x) := by
            show (if y * m.width + x < m.width * m.height then (0 : ℚ) else _) =
              (if y * m.width + x < m.width * m.height then (0 : ℚ) else _)
            rw [if_pos (cell_lt hx hy), if_pos (cell_lt hx hy)]
          exact (seedAll_agree m img _ _ _ hfill hfill2 m.glyphHeight).2
        have hdec : i = (i / m.width) * m.width + i % m.width := by
          rw [Nat.add_comm, Nat.mul_comm]
          exact (Nat.mod_add_div i m.width).symm
        have hxi : i % m.width < m.width := Nat.mod_lt i hW
        have hyi : i / m.width < m.height := by
          rw [Nat.div_lt_iff_lt_mul hW]
          rw [Nat.mul_comm]
          exact hi
        have houter : (drawOuterEdt m img gO0 gI0 f0 v0 z0).grid i =
            (drawOuterEdt m img gOb0 gIb0 fb0 vb0 zb0).grid i := by
          rw [hdec]
          exact edt_agree _ _ m.width m.height f0 v0 z0 fb0 vb0 zb0 hW hH hWI hHI
            hagree1 (i % m.width) hxi (i / m.width) hyi
        have hinner : (drawInnerEdt m img gO0 gI0 f0 v0 z0).grid i =
            (drawInnerEdt m img gOb0 gIb0 fb0 vb0 zb0).grid i := by
          rw [hdec]
          exact edt_agree _ _ m.width m.height _ _ _ _ _ _ hW hH hWI hHI
            hagree2 (i % m.width) hxi (i / m.width) hyi
        rw [houter, hinner]
      · rw [if_neg hi, if_neg hi]

/-- Witness for C9: a concrete run with dirty scratch buffers versus clean
ones gives the same transformed cell and the same output byte. -/
theorem claim_C9_witness :
    (0 : ℕ) < 1 ∧
    (edt1d (fun _ => (2 : ℚ)) 0 1 1 (fun _ => 7) (fun _ => 9) (fun _ => 11)).grid 0 =
      (edt1d (fun _ => (2 : ℚ)) 0 1 1 (fun _ => 0) (fun _ => 0) (fun _ => 0)).grid 0 ∧
    (edt (fun _ => (2 : ℚ)) 1 1 (fun _ => 7) (fun _ => 9) (fun _ => 11)).grid 0 =
      (edt (fun _ => (2 : ℚ)) 1 1 (fun _ => 0) (fun _ => 0) (fun _ => 0)).grid 0 ∧
    (draw ⟨1, 1, 1, 1, 0, 0, 0⟩ (fun _ => 0) 8 (1 / 4) (fun _ => 5) (fun _ => 5)
        (fun _ => 7) (fun _ => 9) (fun _ => 11)).data 0 =
      (draw ⟨1, 1, 1, 1, 0, 0, 0⟩ (fun _ => 0) 8 (1 / 4) (fun _ => 0) (fun _ => 0)
        (fun _ => 0) (fun _ => 0) (fun _ => 0)).data 0 := by
  have h := claim_C9 (fun _ => (2 : ℚ)) (fun _ => (2 : ℚ)) 0 1 1 1 1
    (fun _ => 7) (fun _ => 0) (fun _ => 9) (fun _ => 0) (fun _ => 11) (fun _ => 0)
    (by norm_num) (by norm_num) (by norm_num [INF]) (by norm_num) (by norm_num)
    (by norm_num [INF]) (by norm_num [INF])
  exact ⟨by norm_num, h.1 0, h.2.1 0,
    h.2.2 ⟨1, 1, 1, 1, 0, 0, 0⟩ (fun _ => 0) 8 (1 / 4) (fun _ => 5) (fun _ => 5)
      (fun _ => 0) (fun _ => 0) (by norm_num [INF]) (by norm_num [INF]) 0⟩

/-- Claim C4: `edt` performs one `edt1d` pass per row (stride 1, length
`width`) and one per column (stride `width`, length `height`) on the same grid
in place, and the grid it produces is the one described by the spec's
rows-first-then-columns order: on every cell the two orders agree (both
compute the separable 2D minimum), so `edt` coincides with the spec-ordered
`edtRowsFirst`. -/
theorem claim_C4 (g : ℕ → ℚ) (w h : ℕ) (f0 : ℕ → ℚ) (v0 : ℕ → ℕ) (z0 : ℕ → ℚ)
    (hw : 0 < w) (hh : 0 < h) (hwI : (w : ℚ) ≤ INF) (hhI : (h : ℚ) ≤ INF) :
    ∀ j, (edt g w h f0 v0 z0).grid j = (edtRowsFirst g w h f0 v0 z0).grid j := by
  intro j
  by_cases hj : ∃ x, x < w ∧ ∃ y, y < h ∧ j = y * w + x
  · obtain ⟨x, hx, y, hy, rfl⟩ := hj
    rw [(edt_spec g w h f0 v0 z0 hw hh hwI hhI).1 x hx y hy,
      (edtRowsFirst_spec g w h f0 v0 z0 hw hh hwI hhI).1 x hx y hy]
    exact nested_swap (fun rx ry => g (ry * w + rx)) w h hw hh (x : ℚ) (y : ℚ)
  · push_neg at hj
    rw [(edt_spec g w h f0 v0 z0 hw hh hwI hhI).2 j hj,
      (edtRowsFirst_spec g w h f0 v0 z0 hw hh hwI hhI).2 j hj]

/-- Witness for C4 at a concrete 1-by-1 grid and cell 0. -/
theorem claim_C4_witness :
    (0 : ℕ) < 1 ∧
    (edt (fun _ => (5 : ℚ)) 1 1 (fun _ => 0) (fun _ => 0) (fun _ => 0)).grid 0 =
      (edtRowsFirst (fun _ => (5 : ℚ)) 1 1 (fun _ => 0) (fun _ => 0) (fun _ => 0)).grid 0 :=
  ⟨by norm_num,
    claim_C4 (fun _ => (5 : ℚ)) 1 1 (fun _ => 0) (fun _ => 0) (fun _ => 0)
      (by norm_num) (by norm_num) (by norm_num [INF]) (by norm_num [INF]) 0⟩

/-- Claim C5 (amended): re-running `edt` on an already transformed all-finite
grid does not crash (it is a total function of the grid) and produces at every
cell a value smaller than or equal to the value before the second run. -/
theorem claim_C5 (g0 : ℕ → ℚ) (w h : ℕ) (f0 f1 : ℕ → ℚ) (v0 v1 : ℕ → ℕ)
    (z0 z1 : ℕ → ℚ) (hw : 0 < w) (hh : 0 < h) (hwI : (w : ℚ) ≤ INF)
    (hhI : (h : ℚ) ≤ INF) (x y : ℕ) (hx : x < w) (hy : y < h) :
    (edt (edt g0 w h f0 v0 z0).grid w h f1 v1 z1).grid (y * w + x) ≤
      (edt g0 w h f0 v0 z0).grid (y * w + x) := by
  set g1 := (edt g0 w h f0 v0 z0).grid with hg1
  rw [(edt_spec g1 w h f1 v1 z1 hw hh hwI hhI).1 x hx y hy]
  have h1 := lineMin_le (fun rx => lineMin (fun ry => g1 (ry * w + rx)) (y : ℚ) h) (x : ℚ) hx
  have h2 := lineMin_le (fun ry => g1 (ry * w + x)) (y : ℚ) hy
  simp only [pval, sub_self, mul_zero, zero_mul, add_zero] at h1 h2
  exact le_trans h1 h2

/-- Counterexample to C5 as stated: for the 3-by-1 grid with a single zero
cost at cell 0 (whose transform is the all-finite field `[0, 1, 4]`), the
second run of `edt` yields 2 at cell 2, which is not `≥ 4`. -/
theorem claim_C5_counterexample :
    ¬ ((edt (edt (fun j => if j = 0 then (0 : ℚ) else INF) 3 1
          (fun _ => 0) (fun _ => 0) (fun _ => 0)).grid 3 1
          (fun _ => 0) (fun _ => 0) (fun _ => 0)).grid (0 * 3 + 2) ≥
        (edt (fun j => if j = 0 then (0 : ℚ) else INF) 3 1
          (fun _ => 0) (fun _ => 0) (fun _ => 0)).grid (0 * 3 + 2)) := by
  have hw : (0 : ℕ) < 3 := by norm_num
  have hh : (0 : ℕ) < 1 := by norm_num
  have hwI : ((3 : ℕ) : ℚ) ≤ INF := by norm_num [INF]
  have hhI : ((1 : ℕ) : ℚ) ≤ INF := by norm_num [INF]
  set g0 : ℕ → ℚ := fun j => if j = 0 then (0 : ℚ) else INF with hg0def
  set g1 := (edt g0 3 1 (fun _ => 0) (fun _ => 0) (fun _ => 0)).grid with hg1def
  -- values of the first transform
  have hg1 : ∀ r : ℕ, r < 3 → g1 (0 * 3 + r) = (r : ℚ) * r := by
    intro r hr
    rw [hg1def, (edt_spec g0 3 1 (fun _ => 0) (fun _ => 0) (fun _ => 0)
      hw hh hwI hhI).1 r hr 0 hh]
    have hinner : ∀ rx, rx < 3 →
        lineMin (fun ry => g0 (ry * 3 + rx)) ((0 : ℕ) : ℚ) 1 =
          (if rx = 0 then (0 : ℚ) else INF) := by
      intro rx _
      show pval (fun ry => g0 (ry * 3 + rx)) 0 ((0 : ℕ) : ℚ) = _
      simp [pval, hg0def]
    rw [lineMin_congr _ hinner,
      lineMin_delta 0 0 3 (by norm_num) ((r : ℕ) : ℚ) ?hbv]
    · push_cast
      ring
    case hbv =>
      have hr2 : ((r : ℕ) : ℚ) ≤ 2 := by
        have : (r : ℕ) ≤ 2 := by omega
        exact_mod_cast this
      have hr0 : (0 : ℚ) ≤ ((r : ℕ) : ℚ) := Nat.cast_nonneg r
      have : ((r : ℕ) : ℚ) * ((r : ℕ) : ℚ) ≤ 4 := by nlinarith
      have hINF : (4 : ℚ) ≤ INF := by norm_num [INF]
      push_cast
      linarith
  -- value of the second transform at cell 2
  have hval2 : (edt g1 3 1 (fun _ => 0) (fun _ => 0) (fun _ => 0)).grid (0 * 3 + 2) =
      2 := by
    rw [(edt_spec g1 3 1 (fun _ => 0) (fun _ => 0) (fun _ => 0)
      hw hh hwI hhI).1 2 (by norm_num) 0 hh]
    have hinner : ∀ rx, rx < 3 →
        lineMin (fun ry => g1 (ry * 3 + rx)) ((0 : ℕ) : ℚ) 1 =
          (rx : ℚ) * rx := by
      intro rx hrx
      have hcoll : lineMin (fun ry => g1 (ry * 3 + rx)) ((0 : ℕ) : ℚ) 1 =
          g1 (0 * 3 + rx) := by
        show pval (fun ry => g1 (ry * 3 + rx)) 0 ((0 : ℕ) : ℚ) = _
        simp [pval]
      rw [hcoll, hg1 rx hrx]
    rw [lineMin_congr _ hinner]
    show min (min (pval (fun rx => (rx : ℚ) * rx) 0 ((2 : ℕ) : ℚ))
        (pval (fun rx => (rx : ℚ) * rx) 1 ((2 : ℕ) : ℚ)))
      (pval (fun rx => (rx : ℚ) * rx) 2 ((2 : ℕ) : ℚ)) = 2
    simp only [pval]
    norm_num
  have hval1 : g1 (0 * 3 + 2) = 4 := by
    have := hg1 2 (by norm_num)
    rw [this]
    norm_num
  rw [hval2, hval1]
  norm_num

/-- Witness for the amended C5 at a concrete 1-by-1 grid. -/
theorem claim_C5_witness :
    (0 : ℕ) < 1 ∧
    (edt (edt (fun _ => (3 : ℚ)) 1 1 (fun _ => 0) (fun _ => 0) (fun _ => 0)).grid 1 1
        (fun _ => 0) (fun _ => 0) (fun _ => 0)).grid (0 * 1 + 0) ≤
      (edt (fun _ => (3 : ℚ)) 1 1 (fun _ => 0) (fun _ => 0) (fun _ => 0)).grid
        (0 * 1 + 0) :=
  ⟨by norm_num,
    claim_C5 (fun _ => (3 : ℚ)) 1 1 (fun _ => 0) (fun _ => 0) (fun _ => 0) (fun _ => 0)
      (fun _ => 0) (fun _ => 0) (by norm_num) (by norm_num) (by norm_num [INF])
      (by norm_num [INF]) 0 0 (by norm_num) (by norm_num)⟩

/-- Claim C7: for every line (any grid, offset, stride, length and scratch
contents, including all-sentinel and all-zero lines and single-sample lines),
`edt1d` is safe: every stack entry read during the popping loop for sample
`q = n + 1` holds an index strictly below `q`, so the divisor `q - r` of the
intersection formula is never zero (first conjunct, stated over the rationals
of the actual division); and the output-pass cursor never leaves the valid
stack region `0..k`, so it never reads below index 0 of `v` (second
conjunct). -/
theorem claim_C7 (g : ℕ → ℚ) (off st L : ℕ) (f0 : ℕ → ℚ) (v0 : ℕ → ℕ) (z0 : ℕ → ℚ)
    (hL : 0 < L) (hLI : (L : ℚ) ≤ INF) :
    (∀ n j, j ≤ (scanTo (lineF g off st L f0) v0 z0 n).k →
      (((n + 1 : ℕ) : ℚ) - ((scanTo (lineF g off st L f0) v0 z0 n).v j : ℚ)) ≠ 0) ∧
    (∀ n, n ≤ L →
      (outTo (lineF g off st L f0) (scanTo (lineF g off st L f0) v0 z0 (L - 1)).v
        (scanTo (lineF g off st L f0) v0 z0 (L - 1)).z off st L g n).1 ≤
        (scanTo (lineF g off st L f0) v0 z0 (L - 1)).k) := by
  constructor
  · intro n j hj
    have hv := (scanInv_to (lineF g off st L f0) v0 z0 n).vlt j hj
    have hcast : (((scanTo (lineF g off st L f0) v0 z0 n).v j : ℕ) : ℚ) <
        ((n + 1 : ℕ) : ℚ) := by exact_mod_cast hv
    have : (0 : ℚ) < ((n + 1 : ℕ) : ℚ) -
        ((scanTo (lineF g off st L f0) v0 z0 n).v j : ℚ) := by linarith
    exact ne_of_gt this
  · intro n hn
    have h1 := scanInv_to (lineF g off st L f0) v0 z0 (L - 1)
    have h2 : L - 1 + 1 = L := by omega
    rw [h2] at h1
    exact (outTo_inv (lineF g off st L f0) h1 hLI off st g n hn).1

/-- Witness for C7 at a concrete single-sample line. -/
theorem claim_C7_witness :
    (0 : ℕ) < 1 ∧
    (((0 + 1 : ℕ) : ℚ) -
      ((scanTo (lineF (fun _ => (0 : ℚ)) 0 1 1 (fun _ => 0)) (fun _ => 0) (fun _ => 0)
        0).v 0 : ℚ)) ≠ 0 ∧
    (outTo (lineF (fun _ => (0 : ℚ)) 0 1 1 (fun _ => 0))
      (scanTo (lineF (fun _ => (0 : ℚ)) 0 1 1 (fun _ => 0)) (fun _ => 0) (fun _ => 0)
        (1 - 1)).v
      (scanTo (lineF (fun _ => (0 : ℚ)) 0 1 1 (fun _ => 0)) (fun _ => 0) (fun _ => 0)
        (1 - 1)).z 0 1 1 (fun _ => (0 : ℚ)) 1).1 ≤
      (scanTo (lineF (fun _ => (0 : ℚ)) 0 1 1 (fun _ => 0)) (fun _ => 0) (fun _ => 0)
        (1 - 1)).k := by
  have h := claim_C7 (fun _ => (0 : ℚ)) 0 1 1 (fun _ => 0) (fun _ => 0) (fun _ => 0)
    (by norm_num) (by norm_num [INF])
  exact ⟨by norm_num, h.1 0 0 (Nat.zero_le _), h.2 1 (le_refl 1)⟩

/-- Claim C8: running `edt` on the horizontally mirrored grid produces exactly
the horizontal mirror of the result of running `edt` on the original grid, and
running it on the vertically mirrored grid exactly the vertical mirror of the
result, on every cell of the `width × height` grid (and independently of the
scratch contents of either run). -/
theorem claim_C8 (g : ℕ → ℚ) (w h : ℕ) (f0 f1 : ℕ → ℚ) (v0 v1 : ℕ → ℕ)
    (z0 z1 : ℕ → ℚ) (hw : 0 < w) (hh : 0 < h) (hwI : (w : ℚ) ≤ INF)
    (hhI : (h : ℚ) ≤ INF) (x y : ℕ) (hx : x < w) (hy : y < h) :
    ((edt (mirrorH g w) w h f0 v0 z0).grid (y * w + x) =
      mirrorH ((edt g w h f1 v1 z1).grid) w (y * w + x)) ∧
    ((edt (mirrorV g w h) w h f0 v0 z0).grid (y * w + x) =
      mirrorV ((edt g w h f1 v1 z1).grid) w h (y * w + x)) := by
  have hdm := cell_div_mod (y := y) hx
  constructor
  · have hR : mirrorH ((edt g w h f1 v1 z1).grid) w (y * w + x) =
        (edt g w h f1 v1 z1).grid (y * w + (w - 1 - x)) := by
      unfold mirrorH
      rw [hdm.1, hdm.2]
    rw [hR, (edt_spec (mirrorH g w) w h f0 v0 z0 hw hh hwI hhI).1 x hx y hy,
      (edt_spec g w h f1 v1 z1 hw hh hwI hhI).1 (w - 1 - x) (by omega) y hy]
    have hcong : ∀ rx, rx < w →
        lineMin (fun ry => mirrorH g w (ry * w + rx)) (y : ℚ) h =
          lineMin (fun ry => g (ry * w + (w - 1 - rx))) (y : ℚ) h := by
      intro rx hrx
      refine lineMin_congr _ fun ry _ => ?_
      unfold mirrorH
      rw [(cell_div_mod (y := ry) hrx).1, (cell_div_mod (y := ry) hrx).2]
    rw [lineMin_congr _ hcong]
    exact lineMin_reflect (fun rxb => lineMin (fun ry => g (ry * w + rxb)) (y : ℚ) h)
      w hw x hx
  · have hR : mirrorV ((edt g w h f1 v1 z1).grid) w h (y * w + x) =
        (edt g w h f1 v1 z1).grid ((h - 1 - y) * w + x) := by
      unfold mirrorV
      rw [hdm.1, hdm.2]
    rw [hR, (edt_spec (mirrorV g w h) w h f0 v0 z0 hw hh hwI hhI).1 x hx y hy,
      (edt_spec g w h f1 v1 z1 hw hh hwI hhI).1 x hx (h - 1 - y) (by omega)]
    refine lineMin_congr (x : ℚ) fun rx hrx => ?_
    have hcong : ∀ ry, ry < h →
        mirrorV g w h (ry * w + rx) = g ((h - 1 - ry) * w + rx) := by
      intro ry _
      unfold mirrorV
      rw [(cell_div_mod (y := ry) hrx).1, (cell_div_mod (y := ry) hrx).2]
    rw [lineMin_congr _ hcong]
    exact lineMin_reflect (fun ryb => g (ryb * w + rx)) h hh y hy

/-- Witness for C8 at a concrete 2-by-1 grid, for both mirror directions. -/
theorem claim_C8_witness :
    (0 : ℕ) < 2 ∧
    ((edt (mirrorH (fun j => if j = 0 then (0 : ℚ) else INF) 2) 2 1
        (fun _ => 0) (fun _ => 0) (fun _ => 0)).grid (0 * 2 + 0) =
      mirrorH ((edt (fun j => if j = 0 then (0 : ℚ) else INF) 2 1
        (fun _ => 7) (fun _ => 7) (fun _ => 7)).grid) 2 (0 * 2 + 0)) ∧
    ((edt (mirrorV (fun j => if j = 0 then (0 : ℚ) else INF) 2 1) 2 1
        (fun _ => 0) (fun _ => 0) (fun _ => 0)).grid (0 * 2 + 0) =
      mirrorV ((edt (fun j => if j = 0 then (0 : ℚ) else INF) 2 1
        (fun _ => 7) (fun _ => 7) (fun _ => 7)).grid) 2 1 (0 * 2 + 0)) := by
  have hc := claim_C8 (fun j => if j = 0 then (0 : ℚ) else INF) 2 1 (fun _ => 0)
    (fun _ => 7) (fun _ => 0) (fun _ => 7) (fun _ => 0) (fun _ => 7) (by norm_num)
    (by norm_num) (by norm_num [INF]) (by norm_num [INF]) 0 0 (by norm_num)
    (by norm_num)
  exact ⟨by norm_num, hc.1, hc.2⟩

/-- Claim C1 (amended): for a `width × height` cost grid holding cost 0 at the
single cell `(x0, y0)` and the sentinel `1e20` everywhere else, and whose
dimensions are small enough that the sentinel really dominates every
achievable squared distance (`(w-1)^2 + (h-1)^2 ≤ 1e20`), `edt` overwrites
every cell `(x, y)` with exactly `(x - x0)^2 + (y - y0)^2`. -/
theorem claim_C1 (w h x0 y0 x y : ℕ) (f0 : ℕ → ℚ) (v0 : ℕ → ℕ) (z0 : ℕ → ℚ)
    (hx0 : x0 < w) (hy0 : y0 < h) (hx : x < w) (hy : y < h)
    (hwI : (w : ℚ) ≤ INF) (hhI : (h : ℚ) ≤ INF)
    (hbound : ((w : ℚ) - 1) * ((w : ℚ) - 1) + ((h : ℚ) - 1) * ((h : ℚ) - 1) ≤ INF) :
    (edt (fun j => if j = y0 * w + x0 then 0 else INF) w h f0 v0 z0).grid (y * w + x) =
      ((x : ℚ) - x0) * ((x : ℚ) - x0) + ((y : ℚ) - y0) * ((y : ℚ) - y0) := by
  have hw : 0 < w := by omega
  have hh : 0 < h := by omega
  have hsqy : ((y : ℚ) - y0) * ((y : ℚ) - y0) ≤ ((h : ℚ) - 1) * ((h : ℚ) - 1) :=
    sq_diff_le hy hy0
  have hsqx : ((x : ℚ) - x0) * ((x : ℚ) - x0) ≤ ((w : ℚ) - 1) * ((w : ℚ) - 1) :=
    sq_diff_le hx hx0
  have hw2 : (0 : ℚ) ≤ ((w : ℚ) - 1) * ((w : ℚ) - 1) := mul_self_nonneg _
  have hh2 : (0 : ℚ) ≤ ((h : ℚ) - 1) * ((h : ℚ) - 1) := mul_self_nonneg _
  rw [(edt_spec (fun j => if j = y0 * w + x0 then 0 else INF) w h f0 v0 z0
    hw hh hwI hhI).1 x hx y hy]
  have hinner : ∀ rx, rx < w →
      lineMin (fun ry => if ry * w + rx = y0 * w + x0 then (0 : ℚ) else INF) (y : ℚ) h =
        (if rx = x0 then ((y : ℚ) - y0) * ((y : ℚ) - y0) else INF) := by
    intro rx hrx
    by_cases hrx0 : rx = x0
    · subst hrx0
      rw [if_pos rfl]
      have hcong : ∀ r, r < h →
          (if r * w + rx = y0 * w + rx then (0 : ℚ) else INF) =
            (if r = y0 then (0 : ℚ) else INF) := by
        intro r _
        by_cases hry : r = y0
        · subst hry; rw [if_pos rfl, if_pos rfl]
        · rw [if_neg (fun hcon => hry (cell_inj hrx hrx hcon).1), if_neg hry]
      rw [lineMin_congr _ hcong,
        lineMin_delta 0 y0 h hy0 (y : ℚ) (by linarith), zero_add]
    · rw [if_neg hrx0]
      have hcong : ∀ r, r < h →
          (if r * w + rx = y0 * w + x0 then (0 : ℚ) else INF) = INF := by
        intro r _
        exact if_neg fun hcon => hrx0 (cell_inj hrx hx0 hcon).2
      rw [lineMin_congr _ hcong, lineMin_const INF hy]
  rw [lineMin_congr _ hinner,
    lineMin_delta (((y : ℚ) - y0) * ((y : ℚ) - y0)) x0 w hx0 (x : ℚ) (by linarith)]
  ring

/-- Witness for C1 at a concrete 1-by-1 grid with its zero at `(0, 0)`. -/
theorem claim_C1_witness :
    (0 : ℕ) < 1 ∧
    (edt (fun j => if j = 0 * 1 + 0 then (0 : ℚ) else INF) 1 1
        (fun _ => 0) (fun _ => 0) (fun _ => 0)).grid (0 * 1 + 0) =
      (((0 : ℕ) : ℚ) - (0 : ℕ)) * (((0 : ℕ) : ℚ) - (0 : ℕ)) +
        (((0 : ℕ) : ℚ) - (0 : ℕ)) * (((0 : ℕ) : ℚ) - (0 : ℕ)) :=
  ⟨by norm_num,
    claim_C1 1 1 0 0 0 0 (fun _ => 0) (fun _ => 0) (fun _ => 0) (by norm_num)
      (by norm_num) (by norm_num) (by norm_num) (by norm_num [INF])
      (by norm_num [INF]) (by norm_num [INF])⟩

/-- Counterexample to C1 as stated, with the grid size unrestricted: on a
`(10^10 + 2) × 1` grid whose single zero cell is `(0, 0)`, the cell
`x = 10^10 + 1` satisfies `x^2 > 1e20`, so the sentinel parabola wins and
`edt` stores `1e20` there instead of the exact squared distance `x^2`. -/
theorem claim_C1_counterexample :
    (edt (fun j => if j = 0 * (10 ^ 10 + 2) + 0 then (0 : ℚ) else INF) (10 ^ 10 + 2) 1
        (fun _ => 0) (fun _ => 0) (fun _ => 0)).grid (0 * (10 ^ 10 + 2) + (10 ^ 10 + 1)) ≠
      (((10 ^ 10 + 1 : ℕ) : ℚ) - (0 : ℕ)) * (((10 ^ 10 + 1 : ℕ) : ℚ) - (0 : ℕ)) +
        (((0 : ℕ) : ℚ) - (0 : ℕ)) * (((0 : ℕ) : ℚ) - (0 : ℕ)) := by
  have hw : (0 : ℕ) < 10 ^ 10 + 2 := by norm_num
  have hh : (0 : ℕ) < 1 := by norm_num
  have hwI : ((10 ^ 10 + 2 : ℕ) : ℚ) ≤ INF := by norm_num [INF]
  have hhI : ((1 : ℕ) : ℚ) ≤ INF := by norm_num [INF]
  have hx : 10 ^ 10 + 1 < 10 ^ 10 + 2 := by norm_num
  rw [show (0 : ℕ) * (10 ^ 10 + 2) + 0 = 0 by norm_num]
  rw [(edt_spec (fun j => if j = 0 then (0 : ℚ) else INF)
      (10 ^ 10 + 2) 1 (fun _ => 0) (fun _ => 0) (fun _ => 0) hw hh hwI hhI).1
      (10 ^ 10 + 1) hx 0 hh]
  have hinner : ∀ rx, rx < 10 ^ 10 + 2 →
      lineMin (fun ry => if ry * (10 ^ 10 + 2) + rx = 0 then (0 : ℚ)
        else INF) ((0 : ℕ) : ℚ) 1 =
        (if rx = 0 then (0 : ℚ) else INF) := by
    intro rx _
    show pval (fun ry => if ry * (10 ^ 10 + 2) + rx = 0 then (0 : ℚ)
      else INF) 0 ((0 : ℕ) : ℚ) = _
    simp [pval]
  rw [lineMin_congr _ hinner]
  have hval : lineMin (fun rx => if rx = 0 then (0 : ℚ) else INF)
      ((10 ^ 10 + 1 : ℕ) : ℚ) (10 ^ 10 + 2) = INF := by
    refine le_antisymm ?_ ?_
    · have h1 := lineMin_le (fun rx => if rx = 0 then (0 : ℚ) else INF)
        ((10 ^ 10 + 1 : ℕ) : ℚ) hx
      simp only [pval] at h1
      rw [if_neg (by norm_num : (10 ^ 10 + 1 : ℕ) ≠ 0)] at h1
      simpa using h1
    · refine le_lineMin _ _ (by norm_num) fun r hr => ?_
      by_cases hr0 : r = 0
      · subst hr0
        simp only [pval, if_pos rfl, Nat.cast_zero, sub_zero, zero_add]
        have hc : ((10 ^ 10 + 1 : ℕ) : ℚ) = 10 ^ 10 + 1 := by push_cast; ring
        rw [hc]
        norm_num [INF]
      · simp only [pval, if_neg hr0]
        have := mul_self_nonneg (((10 ^ 10 + 1 : ℕ) : ℚ) - (r : ℚ))
        linarith
  rw [hval]
  have hc : ((10 ^ 10 + 1 : ℕ) : ℚ) = 10 ^ 10 + 1 := by push_cast; ring
  rw [hc]
  norm_num [INF]

/-- Claim C2: before the transforms, `draw` seeds every canvas cell outside
the glyph's drawn rectangle with `gridOuter = INF` and `gridInner = 0`, and
every cell inside the rectangle, with alpha `a`, with
`gridOuter = 0 / INF / max(0, 0.5 - a)^2` according to `a = 1 / a = 0 / else`,
and symmetrically `gridInner = INF / 0 / max(0, a - 0.5)^2`. -/
theorem claim_C2 (m : Metrics) (img : ℕ → ℕ) (gO0 gI0 : ℕ → ℚ)
    (hgwW : drawOffset m + m.glyphWidth ≤ m.width)
    (hghH : drawOffset m + m.glyphHeight ≤ m.height) :
    (∀ x, x < m.glyphWidth → ∀ y, y < m.glyphHeight →
      (seededGrids m img gO0 gI0).1 (seedIdx m x y) =
        (if alphaAt img m.glyphWidth x y = 1 then 0
          else if alphaAt img m.glyphWidth x y = 0 then INF
          else max 0 (1 / 2 - alphaAt img m.glyphWidth x y) ^ 2) ∧
      (seededGrids m img gO0 gI0).2 (seedIdx m x y) =
        (if alphaAt img m.glyphWidth x y = 1 then INF
          else if alphaAt img m.glyphWidth x y = 0 then 0
          else max 0 (alphaAt img m.glyphWidth x y - 1 / 2) ^ 2)) ∧
    (∀ X, X < m.width → ∀ Y, Y < m.height →
      ¬(drawOffset m ≤ X ∧ X < drawOffset m + m.glyphWidth ∧
        drawOffset m ≤ Y ∧ Y < drawOffset m + m.glyphHeight) →
      (seededGrids m img gO0 gI0).1 (Y * m.width + X) = INF ∧
      (seededGrids m img gO0 gI0).2 (Y * m.width + X) = 0) := by
  constructor
  · intro x hx y hy
    have h := seedAll_at m img (fillGrids m gO0 gI0) hgwW m.glyphHeight x y hx hy
    constructor
    · unfold seededGrids
      rw [h.1]
      unfold outerSeed
      rw [pow_two]
    · unfold seededGrids
      rw [h.2]
      unfold innerSeed
      rw [pow_two]
  · intro X hX Y hY hout
    have hfr := seedAll_frame m img (fillGrids m gO0 gI0) m.glyphHeight
      (Y * m.width + X) ?hc
    case hc =>
      intro x hx y hy hcon
      rw [seedIdx_assoc] at hcon
      have hinj := cell_inj hX (by omega) hcon
      exact hout ⟨by omega, by omega, by omega, by omega⟩
    constructor
    · unfold seededGrids
      rw [hfr.1]
      show (if Y * m.width + X < m.width * m.height then INF else gO0 _) = INF
      rw [if_pos (cell_lt hX hY)]
    · unfold seededGrids
      rw [hfr.2]
      show (if Y * m.width + X < m.width * m.height then (0 : ℚ) else gI0 _) = 0
      rw [if_pos (cell_lt hX hY)]

/-- Witness for C2: a 3-by-3 canvas with a one-pixel glyph of alpha 128/255 at
offset (1, 1); the pixel gets the fractional seeds and the corner cell (0, 0)
stays at the sentinel / zero pair. -/
theorem claim_C2_witness :
    drawOffset ⟨3, 3, 1, 1, 0, 0, 0⟩ + (⟨3, 3, 1, 1, 0, 0, 0⟩ : Metrics).glyphWidth ≤ 3 ∧
    ((seededGrids ⟨3, 3, 1, 1, 0, 0, 0⟩ (fun _ => 128) (fun _ => 0) (fun _ => 0)).1
        (seedIdx ⟨3, 3, 1, 1, 0, 0, 0⟩ 0 0) =
      (if alphaAt (fun _ => 128) 1 0 0 = 1 then 0
        else if alphaAt (fun _ => 128) 1 0 0 = 0 then INF
        else max 0 (1 / 2 - alphaAt (fun _ => 128) 1 0 0) ^ 2) ∧
      (seededGrids ⟨3, 3, 1, 1, 0, 0, 0⟩ (fun _ => 128) (fun _ => 0) (fun _ => 0)).2
        (seedIdx ⟨3, 3, 1, 1, 0, 0, 0⟩ 0 0) =
      (if alphaAt (fun _ => 128) 1 0 0 = 1 then INF
        else if alphaAt (fun _ => 128) 1 0 0 = 0 then 0
        else max 0 (alphaAt (fun _ => 128) 1 0 0 - 1 / 2) ^ 2)) ∧
    ((seededGrids ⟨3, 3, 1, 1, 0, 0, 0⟩ (fun _ => 128) (fun _ => 0) (fun _ => 0)).1
        (0 * 3 + 0) = INF ∧
      (seededGrids ⟨3, 3, 1, 1, 0, 0, 0⟩ (fun _ => 128) (fun _ => 0) (fun _ => 0)).2
        (0 * 3 + 0) = 0) := by
  have h := claim_C2 ⟨3, 3, 1, 1, 0, 0, 0⟩ (fun _ => 128) (fun _ => 0) (fun _ => 0)
    (by decide) (by decide)
  exact ⟨by decide, h.1 0 (by decide) 0 (by decide),
    h.2 0 (by decide) 0 (by decide) (by decide)⟩

/-- Claim C3: for every cell `i` of the canvas, the byte `draw` stores is
`round(255 - 255 * (d / radius + cutoff))` clamped to `[0, 255]`, where
`d = sqrt(gridOuter[i]) - sqrt(gridInner[i])` is taken after both distance
transforms; in particular, with `radius = 8` and `cutoff = 0.25`, a cell where
`d = 0` maps to byte value 191. -/
theorem claim_C3 (m : Metrics) (img : ℕ → ℕ) (radius cutoff : ℚ)
    (gO0 gI0 f0 : ℕ → ℚ) (v0 : ℕ → ℕ) (z0 : ℕ → ℚ)
    (hgw : m.glyphWidth ≠ 0) (hgh : m.glyphHeight ≠ 0)
    (i : ℕ) (hi : i < m.width * m.height) :
    (draw m img radius cutoff gO0 gI0 f0 v0 z0).data i =
      clampByte (round ((255 : ℝ) -
        255 * ((Real.sqrt (((drawOuterEdt m img gO0 gI0 f0 v0 z0).grid i : ℚ) : ℝ) -
          Real.sqrt (((drawInnerEdt m img gO0 gI0 f0 v0 z0).grid i : ℚ) : ℝ)) /
            ((radius : ℚ) : ℝ) + ((cutoff : ℚ) : ℝ)))) ∧
    (radius = 8 → cutoff = 1 / 4 →
      (drawOuterEdt m img gO0 gI0 f0 v0 z0).grid i =
        (drawInnerEdt m img gO0 gI0 f0 v0 z0).grid i →
      (draw m img radius cutoff gO0 gI0 f0 v0 z0).data i = 191) := by
  have hdata : (draw m img radius cutoff gO0 gI0 f0 v0 z0).data i =
      clampByte (round ((255 : ℝ) -
        255 * ((Real.sqrt (((drawOuterEdt m img gO0 gI0 f0 v0 z0).grid i : ℚ) : ℝ) -
          Real.sqrt (((drawInnerEdt m img gO0 gI0 f0 v0 z0).grid i : ℚ) : ℝ)) /
            ((radius : ℚ) : ℝ) + ((cutoff : ℚ) : ℝ)))) := by
    rw [draw_data_eq m img radius cutoff gO0 gI0 f0 v0 z0 (not_or.mpr ⟨hgw, hgh⟩)]
    dsimp only
    rw [if_pos hi]
  refine ⟨hdata, fun h8 hq heq => ?_⟩
  subst h8
  subst hq
  rw [hdata, heq, sub_self]
  have hval : (255 : ℝ) - 255 * ((0 : ℝ) / (((8 : ℚ)) : ℝ) + (((1 / 4 : ℚ)) : ℝ)) =
      765 / 4 := by
    push_cast
    norm_num
  rw [hval]
  have hround : round ((765 : ℝ) / 4) = (191 : ℤ) := by
    rw [round_eq, show ((765 : ℝ) / 4 + 1 / 2) = 767 / 4 by norm_num]
    exact Int.floor_eq_iff.mpr ⟨by norm_num, by norm_num⟩
  rw [hround]
  norm_num [clampByte]

/-- Witness for C3 at a concrete 1-by-1 canvas with a nondegenerate glyph. -/
theorem claim_C3_witness :
    (0 : ℕ) < 1 ∧
    ((draw ⟨1, 1, 1, 1, 0, 0, 0⟩ (fun _ => 0) 8 (1 / 4) (fun _ => 0) (fun _ => 0)
        (fun _ => 0) (fun _ => 0) (fun _ => 0)).data 0 =
      clampByte (round ((255 : ℝ) -
        255 * ((Real.sqrt (((drawOuterEdt ⟨1, 1, 1, 1, 0, 0, 0⟩ (fun _ => 0)
            (fun _ => 0) (fun _ => 0) (fun _ => 0) (fun _ => 0) (fun _ => 0)).grid 0 :
              ℚ) : ℝ) -
          Real.sqrt (((drawInnerEdt ⟨1, 1, 1, 1, 0, 0, 0⟩ (fun _ => 0)
            (fun _ => 0) (fun _ => 0) (fun _ => 0) (fun _ => 0) (fun _ => 0)).grid 0 :
              ℚ) : ℝ)) / (((8 : ℚ)) : ℝ) + (((1 / 4 : ℚ)) : ℝ)))) ∧
      ((8 : ℚ) = 8 → (1 / 4 : ℚ) = 1 / 4 →
        (drawOuterEdt ⟨1, 1, 1, 1, 0, 0, 0⟩ (fun _ => 0) (fun _ => 0) (fun _ => 0)
          (fun _ => 0) (fun _ => 0) (fun _ => 0)).grid 0 =
          (drawInnerEdt ⟨1, 1, 1, 1, 0, 0, 0⟩ (fun _ => 0) (fun _ => 0) (fun _ => 0)
            (fun _ => 0) (fun _ => 0) (fun _ => 0)).grid 0 →
        (draw ⟨1, 1, 1, 1, 0, 0, 0⟩ (fun _ => 0) 8 (1 / 4) (fun _ => 0) (fun _ => 0)
          (fun _ => 0) (fun _ => 0) (fun _ => 0)).data 0 = 191)) :=
  ⟨by norm_num,
    claim_C3 ⟨1, 1, 1, 1, 0, 0, 0⟩ (fun _ => 0) 8 (1 / 4) (fun _ => 0) (fun _ => 0)
      (fun _ => 0) (fun _ => 0) (fun _ => 0) (by decide) (by decide) 0 (by decide)⟩

/-- Claim C6 (amended): for metrics with `glyphWidth = 0` or
`glyphHeight = 0`, `draw` returns early with the metrics passed through
unchanged and an all-zero byte buffer of length `width * height`, and its
result does not depend on the rasterized image or on any of the reusable
buffers (no rasterization, seeding or transform is observable). -/
theorem claim_C6 (m : Metrics) (img : ℕ → ℕ) (radius cutoff : ℚ)
    (gO0 gI0 f0 : ℕ → ℚ) (v0 : ℕ → ℕ) (z0 : ℕ → ℚ)
    (h : m.glyphWidth = 0 ∨ m.glyphHeight = 0) :
    (draw m img radius cutoff gO0 gI0 f0 v0 z0).glyphWidth = m.glyphWidth ∧
    (draw m img radius cutoff gO0 gI0 f0 v0 z0).glyphHeight = m.glyphHeight ∧
    (draw m img radius cutoff gO0 gI0 f0 v0 z0).width = m.width ∧
    (draw m img radius cutoff gO0 gI0 f0 v0 z0).height = m.height ∧
    (draw m img radius cutoff gO0 gI0 f0 v0 z0).dataLen = m.width * m.height ∧
    (∀ i, (draw m img radius cutoff gO0 gI0 f0 v0 z0).data i = 0) ∧
    (∀ (img2 : ℕ → ℕ) (gO0b gI0b f0b : ℕ → ℚ) (v0b : ℕ → ℕ) (z0b : ℕ → ℚ),
      draw m img radius cutoff gO0 gI0 f0 v0 z0 =
        draw m img2 radius cutoff gO0b gI0b f0b v0b z0b) := by
  rw [draw_early m img radius cutoff gO0 gI0 f0 v0 z0 h]
  refine ⟨rfl, rfl, rfl, rfl, rfl, fun i => rfl, fun img2 gO0b gI0b f0b v0b z0b => ?_⟩
  rw [draw_early m img2 radius cutoff gO0b gI0b f0b v0b z0b h]

/-- Witness for C6 at concrete degenerate metrics. -/
theorem claim_C6_witness :
    ((⟨6, 6, 0, 5, 0, 0, 0⟩ : Metrics).glyphWidth = 0 ∨
      (⟨6, 6, 0, 5, 0, 0, 0⟩ : Metrics).glyphHeight = 0) ∧
    (draw ⟨6, 6, 0, 5, 0, 0, 0⟩ (fun _ => 0) 8 (1 / 4) (fun _ => 0) (fun _ => 0)
      (fun _ => 0) (fun _ => 0) (fun _ => 0)).glyphHeight = 5 ∧
    (draw ⟨6, 6, 0, 5, 0, 0, 0⟩ (fun _ => 0) 8 (1 / 4) (fun _ => 0) (fun _ => 0)
      (fun _ => 0) (fun _ => 0) (fun _ => 0)).data 7 = 0 := by
  have h := claim_C6 ⟨6, 6, 0, 5, 0, 0, 0⟩ (fun _ => 0) 8 (1 / 4) (fun _ => 0)
    (fun _ => 0) (fun _ => 0) (fun _ => 0) (fun _ => 0) (Or.inl rfl)
  exact ⟨Or.inl rfl, h.2.1, h.2.2.2.2.2.1 7⟩

/-- Counterexample to C6 as stated: for metrics with `glyphWidth = 0` but
`glyphHeight = 5` on a 6-by-6 canvas, the returned glyph has
`glyphHeight = 5 ≠ 0` and its byte buffer has length `36 ≠ 0`, so the output
is neither `glyphWidth = glyphHeight = 0` nor an empty buffer. -/
theorem claim_C6_counterexample :
    (draw ⟨6, 6, 0, 5, 0, 0, 0⟩ (fun _ => 0) 8 (1 / 4) (fun _ => 0) (fun _ => 0)
      (fun _ => 0) (fun _ => 0) (fun _ => 0)).glyphHeight ≠ 0 ∧
    (draw ⟨6, 6, 0, 5, 0, 0, 0⟩ (fun _ => 0) 8 (1 / 4) (fun _ => 0) (fun _ => 0)
      (fun _ => 0) (fun _ => 0) (fun _ => 0)).dataLen ≠ 0 := by
  rw [draw_early ⟨6, 6, 0, 5, 0, 0, 0⟩ (fun _ => 0) 8 (1 / 4) (fun _ => 0) (fun _ => 0)
    (fun _ => 0) (fun _ => 0) (fun _ => 0) (Or.inl rfl)]
  exact ⟨by decide, by decide⟩

end TinySDF
